import Mathlib

/-!
A shallow embedding of the name-resolution pass of `mew-resolve`
(`src/crates/mew-resolve/src/resolver.rs`), together with theorems checking
the natural-language specification against it.

The syntax-tree node types come from the external `mew_parse` crate, which is
not part of the sources; they are modelled from the specification (section 3,
"DATA MODEL").  Span wrappers are kept exactly where the resolver reads or
writes them; machine strings are Lean `String`s; the persistent
`im::HashMap` scope is modelled as an association list whose `insert` conses
(last insert wins, structure shared); fallible code returns `Except`.
The resolver's recursion is genuinely non-structural (extend processing walks
module copies pulled out of the scope, and can diverge on cyclic `extend`s),
so the embedding is indexed by a fuel parameter; running out of fuel is a
distinguished outcome that the Rust original realises as non-termination.
-/

set_option maxHeartbeats 3200000

namespace Mew

/-- Modelled from the spec: source spans (the `Range<usize>` attached by the parser). -/
structure Span where
  lo : Nat
  hi : Nat
deriving DecidableEq

/-- Modelled from the spec: a value `wrapped with source span`. -/
structure Spanned (α : Type) where
  value : α
  span : Span
deriving DecidableEq

/-- The default span used where the source calls `Default::default()`. -/
def defaultSpan : Span := ⟨0, 0⟩

mutual

/-- Modelled from the spec: `PathPart` is `{ name, template_args?, inline_template_args? }`. -/
inductive PathPart where
  | mk (name : Spanned String)
       (template_args : Option (List (Spanned TemplateArg)))
       (inline_template_args : Option InlineTemplateArgs)

/-- Modelled from the spec: a template argument carries an expression and an
optional argument name. -/
inductive TemplateArg where
  | mk (expression : Spanned Expression) (arg_name : Option (Spanned String))

/-- Modelled from the spec: an inline template-argument block is `a miniature
module body (directives + members)`. -/
inductive InlineTemplateArgs where
  | mk (directives : List (Spanned ModuleDirective))
       (members : List (Spanned ModuleMemberDeclaration))

/-- Modelled from the spec: `TemplateParameter` has a name and an optional
default-value expression. -/
inductive TemplateParameter where
  | mk (name : Spanned String) (default_value : Option (Spanned Expression))

/-- Modelled from the spec: a type expression carries a path. -/
inductive TypeExpression where
  | mk (path : Spanned (List PathPart))

/-- Modelled from the spec: expression forms; literal payloads and the
operators of unary/binary nodes are irrelevant to the resolver and elided. -/
inductive Expression where
  | Literal (value : Int)
  | Parenthesized (inner : Expression)
  | NamedComponent (base : Expression) (component : Spanned String)
  | Indexing (base : Expression) (index : Expression)
  | Unary (operand : Expression)
  | Binary (left : Expression) (right : Expression)
  | FunctionCall (path : Spanned (List PathPart)) (arguments : List Expression)
  | Identifier (path : Spanned (List PathPart))
  | Type (typ : TypeExpression)

/-- Modelled from the spec: case selectors of a switch clause. -/
inductive CaseSelector where
  | Default
  | Expression (e : Expression)

/-- Modelled from the spec: one clause of a switch statement. -/
inductive SwitchClause where
  | mk (case_selectors : List (Spanned CaseSelector)) (body : CompoundStatement)

/-- Modelled from the spec: the `continuing` block of a loop. -/
inductive ContinuingStatement where
  | mk (body : CompoundStatement) (break_if : Option Expression)

/-- Modelled from the spec: a loop statement with an optional continuing block. -/
inductive LoopStatement where
  | mk (body : CompoundStatement) (continuing : Option ContinuingStatement)

/-- Modelled from the spec: statement forms. -/
inductive Statement where
  | Void
  | Compound (c : CompoundStatement)
  | Assignment (lhs : Expression) (rhs : Expression)
  | Increment (e : Expression)
  | Decrement (e : Expression)
  | If (if_clause : Expression × CompoundStatement)
       (else_if_clauses : List (Expression × CompoundStatement))
       (else_clause : Option CompoundStatement)
  | Switch (expression : Expression) (clauses : List SwitchClause)
  | Loop (l : LoopStatement)
  | For (initializer : Option Statement) (condition : Option Expression)
        (update : Option Statement) (body : CompoundStatement)
  | While (condition : Expression) (body : CompoundStatement)
  | Break
  | Continue
  | Return (e : Option Expression)
  | Discard
  | FunctionCall (path : Spanned (List PathPart)) (arguments : List Expression)
  | ConstAssert (a : ConstAssert)
  | Declaration (d : DeclarationStatement)

/-- Modelled from the spec: a block-scoped directive (`Use` only). -/
inductive CompoundDirective where
  | Use (u : Use)

/-- Modelled from the spec: a compound statement has block-local directives and
a statement list. -/
inductive CompoundStatement where
  | mk (directives : List (Spanned CompoundDirective)) (statements : List Statement)

/-- Modelled from the spec: a declaration statement is a declaration `plus` a
sequence of trailing statements in the same scope frame. -/
inductive DeclarationStatement where
  | mk (declaration : Declaration) (statements : List Statement)

/-- Modelled from the spec: a variable/const declaration. -/
inductive Declaration where
  | mk (name : Spanned String)
       (template_parameters : List (Spanned TemplateParameter))
       (typ : Option TypeExpression)
       (initializer : Option Expression)

/-- Modelled from the spec: an alias declaration. -/
inductive Alias where
  | mk (name : Spanned String)
       (template_parameters : List (Spanned TemplateParameter))
       (typ : Spanned TypeExpression)

/-- Modelled from the spec: one member of a struct. -/
inductive StructMember where
  | mk (name : Spanned String) (typ : TypeExpression)

/-- Modelled from the spec: a struct declaration. -/
inductive Struct where
  | mk (name : Spanned String)
       (template_parameters : List (Spanned TemplateParameter))
       (members : List StructMember)

/-- Modelled from the spec: one formal parameter of a function. -/
inductive FunctionParameter where
  | mk (name : Spanned String) (typ : TypeExpression)

/-- Modelled from the spec: a function declaration. -/
inductive Function where
  | mk (name : Spanned String)
       (template_parameters : List (Spanned TemplateParameter))
       (parameters : List FunctionParameter)
       (return_type : Option TypeExpression)
       (body : CompoundStatement)

/-- Modelled from the spec: a const-assert declaration. -/
inductive ConstAssert where
  | mk (template_parameters : List (Spanned TemplateParameter))
       (expression : Expression)

/-- Modelled from the spec: a nested module. -/
inductive Module where
  | mk (name : Spanned String)
       (template_parameters : List (Spanned TemplateParameter))
       (directives : List (Spanned ModuleDirective))
       (members : List (Spanned ModuleMemberDeclaration))

/-- Modelled from the spec: a module-level directive is `Use` or `Extend`. -/
inductive ModuleDirective where
  | Use (u : Use)
  | Extend (e : ExtendDirective)

/-- Modelled from the spec: an extend directive names a module by path. -/
inductive ExtendDirective where
  | mk (path : Spanned (List PathPart))

/-- Modelled from the spec: a use directive has a base path and a content. -/
inductive Use where
  | mk (path : Spanned (List PathPart)) (content : Spanned UseContent)

/-- Modelled from the spec: a use content is an item or a collection of nested
use subtrees. -/
inductive UseContent where
  | Item (i : UseItem)
  | Collection (c : List (Spanned Use))

/-- Modelled from the spec: a use item (name, optional rename, optional
template args, optional inline args). -/
inductive UseItem where
  | mk (name : Spanned String)
       (rename : Option (Spanned String))
       (template_args : Option (List (Spanned TemplateArg)))
       (inline_template_args : Option InlineTemplateArgs)

/-- Modelled from the spec: declaration kinds inside a module. -/
inductive ModuleMemberDeclaration where
  | Void
  | Declaration (d : Declaration)
  | Alias (a : Alias)
  | Struct (s : Struct)
  | Function (f : Function)
  | ConstAssert (c : ConstAssert)
  | Module (m : Module)

end

/-- Modelled from the spec: declaration kinds at the translation-unit root. -/
inductive GlobalDeclaration where
  | Void
  | Declaration (d : Declaration)
  | Alias (a : Alias)
  | Struct (s : Struct)
  | Function (f : Function)
  | ConstAssert (c : ConstAssert)
  | Module (m : Module)

/-- Modelled from the spec: a global directive is `Use` or `Extend`. -/
inductive GlobalDirective where
  | Use (u : Use)
  | Extend (e : ExtendDirective)

/-- Modelled from the spec: the translation unit is an ordered list of global
directives and global declarations. -/
structure TranslationUnit where
  global_directives : List (Spanned GlobalDirective)
  global_declarations : List (Spanned GlobalDeclaration)

/-! Field projections and functional-update helpers for the single-constructor
inductives above (they cannot be `structure`s because they sit in a mutual
block). -/

def PathPart.name : PathPart → Spanned String
  | .mk n _ _ => n

def PathPart.template_args : PathPart → Option (List (Spanned TemplateArg))
  | .mk _ t _ => t

def PathPart.inline_template_args : PathPart → Option InlineTemplateArgs
  | .mk _ _ i => i

def PathPart.withTemplateArgs : PathPart → Option (List (Spanned TemplateArg)) → PathPart
  | .mk n _ i, t => .mk n t i

def PathPart.withInlineTemplateArgs : PathPart → Option InlineTemplateArgs → PathPart
  | .mk n t _, i => .mk n t i

def PathPart.withNameValue : PathPart → String → PathPart
  | .mk n t i, v => .mk ⟨v, n.span⟩ t i

def TemplateArg.expression : TemplateArg → Spanned Expression
  | .mk e _ => e

def TemplateArg.arg_name : TemplateArg → Option (Spanned String)
  | .mk _ a => a

def TemplateArg.withExpression : TemplateArg → Spanned Expression → TemplateArg
  | .mk _ a, e => .mk e a

def TemplateParameter.name : TemplateParameter → Spanned String
  | .mk n _ => n

def TemplateParameter.default_value : TemplateParameter → Option (Spanned Expression)
  | .mk _ d => d

def TemplateParameter.withNameValue : TemplateParameter → String → TemplateParameter
  | .mk n d, v => .mk ⟨v, n.span⟩ d

def TemplateParameter.withDefault : TemplateParameter → Option (Spanned Expression) → TemplateParameter
  | .mk n _, d => .mk n d

def TypeExpression.path : TypeExpression → Spanned (List PathPart)
  | .mk p => p

def TypeExpression.withPath : TypeExpression → Spanned (List PathPart) → TypeExpression
  | .mk _, p => .mk p

def InlineTemplateArgs.directives : InlineTemplateArgs → List (Spanned ModuleDirective)
  | .mk d _ => d

def InlineTemplateArgs.members : InlineTemplateArgs → List (Spanned ModuleMemberDeclaration)
  | .mk _ m => m

def SwitchClause.case_selectors : SwitchClause → List (Spanned CaseSelector)
  | .mk s _ => s

def SwitchClause.body : SwitchClause → CompoundStatement
  | .mk _ b => b

def ContinuingStatement.body : ContinuingStatement → CompoundStatement
  | .mk b _ => b

def ContinuingStatement.break_if : ContinuingStatement → Option Expression
  | .mk _ e => e

def LoopStatement.body : LoopStatement → CompoundStatement
  | .mk b _ => b

def LoopStatement.continuing : LoopStatement → Option ContinuingStatement
  | .mk _ c => c

def CompoundStatement.directives : CompoundStatement → List (Spanned CompoundDirective)
  | .mk d _ => d

def CompoundStatement.statements : CompoundStatement → List Statement
  | .mk _ s => s

def DeclarationStatement.declaration : DeclarationStatement → Declaration
  | .mk d _ => d

def DeclarationStatement.statements : DeclarationStatement → List Statement
  | .mk _ s => s

def Declaration.name : Declaration → Spanned String
  | .mk n _ _ _ => n

def Declaration.template_parameters : Declaration → List (Spanned TemplateParameter)
  | .mk _ t _ _ => t

def Declaration.typ : Declaration → Option TypeExpression
  | .mk _ _ t _ => t

def Declaration.initializer : Declaration → Option Expression
  | .mk _ _ _ i => i

def Alias.name : Alias → Spanned String
  | .mk n _ _ => n

def Alias.template_parameters : Alias → List (Spanned TemplateParameter)
  | .mk _ t _ => t

def Alias.typ : Alias → Spanned TypeExpression
  | .mk _ _ t => t

def StructMember.name : StructMember → Spanned String
  | .mk n _ => n

def StructMember.typ : StructMember → TypeExpression
  | .mk _ t => t

def Struct.name : Struct → Spanned String
  | .mk n _ _ => n

def Struct.template_parameters : Struct → List (Spanned TemplateParameter)
  | .mk _ t _ => t

def Struct.members : Struct → List StructMember
  | .mk _ _ m => m

def FunctionParameter.name : FunctionParameter → Spanned String
  | .mk n _ => n

def FunctionParameter.typ : FunctionParameter → TypeExpression
  | .mk _ t => t

def Function.name : Function → Spanned String
  | .mk n _ _ _ _ => n

def Function.template_parameters : Function → List (Spanned TemplateParameter)
  | .mk _ t _ _ _ => t

def Function.parameters : Function → List FunctionParameter
  | .mk _ _ p _ _ => p

def Function.return_type : Function → Option TypeExpression
  | .mk _ _ _ r _ => r

def Function.body : Function → CompoundStatement
  | .mk _ _ _ _ b => b

def ConstAssert.template_parameters : ConstAssert → List (Spanned TemplateParameter)
  | .mk t _ => t

def ConstAssert.expression : ConstAssert → Expression
  | .mk _ e => e

def Module.name : Module → Spanned String
  | .mk n _ _ _ => n

def Module.template_parameters : Module → List (Spanned TemplateParameter)
  | .mk _ t _ _ => t

def Module.directives : Module → List (Spanned ModuleDirective)
  | .mk _ _ d _ => d

def Module.members : Module → List (Spanned ModuleMemberDeclaration)
  | .mk _ _ _ m => m

def ExtendDirective.path : ExtendDirective → Spanned (List PathPart)
  | .mk p => p

def Use.path : Use → Spanned (List PathPart)
  | .mk p _ => p

def Use.content : Use → Spanned UseContent
  | .mk _ c => c

def UseItem.name : UseItem → Spanned String
  | .mk n _ _ _ => n

def UseItem.rename : UseItem → Option (Spanned String)
  | .mk _ r _ _ => r

def UseItem.template_args : UseItem → Option (List (Spanned TemplateArg))
  | .mk _ _ t _ => t

def UseItem.inline_template_args : UseItem → Option InlineTemplateArgs
  | .mk _ _ _ i => i

/-- The `name()` accessor of module member declarations: every kind except
`Void` and `ConstAssert` is named. -/
def ModuleMemberDeclaration.name : ModuleMemberDeclaration → Option (Spanned String)
  | .Void => none
  | .Declaration d => some d.name
  | .Alias a => some a.name
  | .Struct s => some s.name
  | .Function f => some f.name
  | .ConstAssert _ => none
  | .Module m => some m.name

/-- The `name_mut()` accessor, used as a setter: renames a named member
(preserving the name's span); unnamed members are returned unchanged. -/
def ModuleMemberDeclaration.withNameValue : ModuleMemberDeclaration → String → ModuleMemberDeclaration
  | .Void, _ => .Void
  | .Declaration (.mk n t ty i), v => .Declaration (.mk ⟨v, n.span⟩ t ty i)
  | .Alias (.mk n t ty), v => .Alias (.mk ⟨v, n.span⟩ t ty)
  | .Struct (.mk n t m), v => .Struct (.mk ⟨v, n.span⟩ t m)
  | .Function (.mk n t p r b), v => .Function (.mk ⟨v, n.span⟩ t p r b)
  | .ConstAssert c, _ => .ConstAssert c
  | .Module (.mk n t d m), v => .Module (.mk ⟨v, n.span⟩ t d m)

/-- The `template_parameters()` accessor of module member declarations. -/
def ModuleMemberDeclaration.template_parameters :
    ModuleMemberDeclaration → Option (List (Spanned TemplateParameter))
  | .Void => none
  | .Declaration d => some d.template_parameters
  | .Alias a => some a.template_parameters
  | .Struct s => some s.template_parameters
  | .Function f => some f.template_parameters
  | .ConstAssert c => some c.template_parameters
  | .Module m => some m.template_parameters

/-- The `name()` accessor of global declarations. -/
def GlobalDeclaration.name : GlobalDeclaration → Option (Spanned String)
  | .Void => none
  | .Declaration d => some d.name
  | .Alias a => some a.name
  | .Struct s => some s.name
  | .Function f => some f.name
  | .ConstAssert _ => none
  | .Module m => some m.name

end Mew

namespace Resolver

open Mew

/-- Scope bindings, after `enum ScopeMember` in the resolver.  A module path is
the underlying part list of the resolver's `ModulePath` newtype. -/
inductive ScopeMember where
  | LocalDeclaration
  | BuiltIn
  | ModuleMemberDeclaration (module_path : List PathPart) (decl : Mew.ModuleMemberDeclaration)
  | UseDeclaration (module_path : List PathPart) (template_args : Option (List (Spanned TemplateArg)))
  | GlobalDeclaration (decl : Mew.GlobalDeclaration)
  | FormalFunctionParameter
  | TemplateParam (new_name : String)
  | Inline (module_path : List PathPart)

/-- The persistent `im::HashMap<String, ScopeMember>` scope, modelled as an
association list: insertion conses (so the last insert for a name wins, and
parents are structurally shared, never mutated). -/
def Scope : Type := List (String × ScopeMember)

/-- Pointwise insertion (`HashMap::insert`). -/
def Scope.insert (s : Scope) (k : String) (v : ScopeMember) : Scope :=
  (k, v) :: s

/-- Name lookup (`HashMap::get` / the `remove` in `append_from_scope`, whose
removal happens on a clone that is immediately dropped). -/
def Scope.find : Scope → String → Option ScopeMember
  | [], _ => none
  | (k, v) :: rest, n => if k = n then some v else Scope.find rest n

/-- The empty scope. -/
def Scope.empty : Scope := []

/-- Errors of the pass.  The source's `CompilerPassError` lives in the external
`mew_types` crate; the spec states that the resolver produces exactly one
recoverable kind, `SymbolNotFound(path, span)`.  `invariantViolation` models
the fatal `panic!`/`assert!` in `find_module_and_scope` (a process abort, not
a recoverable error), and `outOfFuel` is the embedding's rendering of
non-termination (the recursion through scope-stored module copies has no
structural bound; cyclic `extend`s diverge in the original). -/
inductive ResolverError where
  | SymbolNotFound (path : List PathPart) (span : Span)
  | invariantViolation
  | outOfFuel

/-- Underscore escaping: `str::replace('_', "__")` doubles every underscore. -/
def escapeUnderscores (s : String) : String :=
  ⟨s.data.flatMap fun c => if c = '_' then ['_', '_'] else [c]⟩

/-- Joining with single underscores: `Vec::join("_")`. -/
def joinWithUnderscore : List String → String
  | [] => ""
  | [s] => s
  | s :: rest => s ++ "_" ++ joinWithUnderscore rest

/-- The template-parameter name mangler (`mangle_template_parameter_name`):
escape each module-path segment name and the containing entity's name, join
them with `"_"`, then append `"_"` and the escaped old name. -/
def mangle_template_parameter_name (module_path : List PathPart)
    (containing_name : String) (old_arg_name : String) : String :=
  let path := joinWithUnderscore
    (((module_path.map fun x => x.name.value) ++ [containing_name]).map escapeUnderscores)
  path ++ "_" ++ escapeUnderscores old_arg_name

/-- Modelled from the spec: the external `mangle_inline_arg_name` collaborator
from the shared name-mangling utility, `a pure function
inline_arg_name(module_path, path, name) → string`, injective over its
triple.  The spec fixes no concrete format; we model it as an
underscore-escaped joining under a distinguishing prefix. -/
def mangle_inline_arg_name (module_path : List PathPart) (path : List PathPart)
    (name : String) : String :=
  "inline_"
    ++ joinWithUnderscore ((module_path.map fun x => x.name.value).map escapeUnderscores)
    ++ "_"
    ++ joinWithUnderscore ((path.map fun x => x.name.value).map escapeUnderscores)
    ++ "_" ++ escapeUnderscores name

/-- Writing the stored template arguments onto the first part of a path
(`path.first_mut().unwrap().template_args = Some(template_args)`). -/
def setFirstTemplateArgs : List PathPart → List (Spanned TemplateArg) → List PathPart
  | [], _ => []
  | p :: rest, targs => p.withTemplateArgs (some targs) :: rest

/-- Renaming the first part of a path (`fst.name.value = new_name`). -/
def setFirstName : List PathPart → String → List PathPart
  | [], _ => []
  | p :: rest, n => p.withNameValue n :: rest

/-- The path rewriter `append_from_scope`: rewrite a path against the scope by
looking up its first segment's name and applying the binding found. -/
def append_from_scope (scope : Scope) (path : Spanned (List PathPart)) :
    Except ResolverError (Spanned (List PathPart)) :=
  match path.value with
  | [] => .ok path
  | fst :: _ =>
    match scope.find fst.name.value with
    | some symbol =>
      match symbol with
      | .LocalDeclaration => .ok path
      | .ModuleMemberDeclaration module_path _ =>
          .ok ⟨module_path ++ path.value, path.span⟩
      | .GlobalDeclaration _ => .ok path
      | .FormalFunctionParameter => .ok path
      | .UseDeclaration module_path template_args =>
          -- the source writes the stored template arguments onto the first part
          -- of the original path, then builds the new path from `module_path`
          -- and the tail of the updated original path — dropping the very part
          -- the arguments were just written to
          let path1 : List PathPart :=
            match template_args with
            | some targs =>
                if targs.isEmpty then path.value
                else setFirstTemplateArgs path.value targs
            | none => path.value
          .ok ⟨module_path ++ path1.drop 1, path.span⟩
      | .BuiltIn => .ok path
      | .TemplateParam new_name =>
          .ok ⟨setFirstName path.value new_name, path.span⟩
      | .Inline module_path =>
          .ok ⟨module_path ++ path.value.drop 1, path.span⟩
    | none => .error (.SymbolNotFound path.value path.span)

/-- Collecting the local declarations of a loop body into scope
(`add_all_local_declarations_recursively_to_scope_ONLY_FOR_loop_statement`):
insert the declaration's name, then recurse into trailing declaration
statements.  The source returns `Result` but can never fail, so the embedding
is total. -/
def add_all_local_declarations_recursively_to_scope_for_loop :
    DeclarationStatement → Scope → Scope
  | .mk decl stmts, scope =>
    let scope := scope.insert decl.name.value .LocalDeclaration
    go stmts scope
where
  /-- Fold over the trailing statements, descending into declarations. -/
  go : List Statement → Scope → Scope
  | [], scope => scope
  | s :: rest, scope =>
    match s with
    | .Declaration d => go rest (add_all_local_declarations_recursively_to_scope_for_loop d scope)
    | _ => go rest scope

/-- The scope extension a `for` initializer contributes: if the (already
walked) initializer is a declaration statement, its declared name becomes a
local declaration for the rest of the `for` statement. -/
def forInitScope (st : Statement) (scope : Scope) : Scope :=
  match st with
  | .Declaration d => scope.insert d.declaration.name.value .LocalDeclaration
  | _ => scope

/-- The loop statement's pass over its (already walked) body statements,
feeding each top-level declaration statement to the local-declaration
collector. -/
def collectTopLevelLoopLocals : List Statement → Scope → Scope
  | [], scope => scope
  | s :: rest, scope =>
    match s with
    | .Declaration d =>
        collectTopLevelLoopLocals rest (add_all_local_declarations_recursively_to_scope_for_loop d scope)
    | _ => collectTopLevelLoopLocals rest scope

/-- Result monad of the pass. -/
abbrev ResolveM (α : Type) : Type := Except ResolverError α

/-- The member pre-indexing inside `update_module_scope`: bind every named
member to a `ModuleMemberDeclaration` at the current module path. -/
def preIndexMembers (module_path : List PathPart)
    (members : List (Spanned ModuleMemberDeclaration)) (scope : Scope) : Scope :=
  members.foldl (fun sc decl =>
    match decl.value.name with
    | some name => sc.insert name.value (.ModuleMemberDeclaration module_path decl.value)
    | none => sc) scope

/-- The global-declaration pre-indexing at the start of
`translation_unit_to_absolute_path`: bind every named global declaration to a
`GlobalDeclaration` scope member, in order. -/
def preIndexGlobals : List (Spanned GlobalDeclaration) → Scope → Scope
  | [], scope => scope
  | decl :: rest, scope =>
    preIndexGlobals rest (match decl.value.name with
      | some name => scope.insert name.value (.GlobalDeclaration decl.value)
      | none => scope)

/-- First loop of `module_template_parameters_to_absolute_path`: rename each
parameter to its mangled form, synthesize a `TemplateArg` per parameter, and
bind both the mangled and the original name to `TemplateParam`. -/
def mangleModuleTemplateParams (module_path : List PathPart) (module_name : String) :
    List (Spanned TemplateParameter) → Scope →
    List (Spanned TemplateParameter) × List (Spanned TemplateArg) × Scope
  | [], scope => ([], [], scope)
  | param :: rest, scope =>
    let old_name := param.value.name.value
    let new_name := mangle_template_parameter_name module_path module_name old_name
    let param' : Spanned TemplateParameter := ⟨param.value.withNameValue new_name, param.span⟩
    let arg : Spanned TemplateArg :=
      ⟨.mk ⟨.Identifier ⟨[.mk ⟨new_name, param.value.name.span⟩ none none], param.span⟩, param.span⟩
          (if param.value.default_value.isSome then some param'.value.name else none),
       param.span⟩
    let scope := (scope.insert new_name (.TemplateParam new_name)).insert old_name
      (.TemplateParam new_name)
    let (ps, args, scope') := mangleModuleTemplateParams module_path module_name rest scope
    (param' :: ps, arg :: args, scope')

/-- The per-member body of the inline template-argument expansion: mangle an
argument name and an inline name for each named member, bind them as
`TemplateParam` and `Inline`, synthesize a `TemplateArg`, and rename the member. -/
def processInlineMembers (full_path : Spanned (List PathPart)) (part : PathPart)
    (module_path : List PathPart) (current : Spanned (List PathPart)) :
    List (Spanned ModuleMemberDeclaration) →
    Scope × List (Spanned TemplateArg) × List (Spanned ModuleMemberDeclaration) →
    Scope × List (Spanned TemplateArg) × List (Spanned ModuleMemberDeclaration)
  | [], st => st
  | arg :: rest, (scope, template_args, derived_members) =>
    let span := arg.span
    match arg.value.name with
    | some initial_name =>
      let arg_name := mangle_template_parameter_name full_path.value part.name.value initial_name.value
      let name := mangle_inline_arg_name module_path current.value initial_name.value
      let module_path' := module_path ++ [PathPart.mk ⟨name, span⟩ none none]
      let scope := (scope.insert arg_name (.TemplateParam name)).insert name (.Inline module_path')
      let targ : Spanned TemplateArg :=
        ⟨.mk ⟨.Identifier ⟨module_path', initial_name.span⟩, initial_name.span⟩
             (some ⟨arg_name, initial_name.span⟩), initial_name.span⟩
      let arg' : Spanned ModuleMemberDeclaration := ⟨arg.value.withNameValue name, arg.span⟩
      processInlineMembers full_path part module_path current rest
        (scope, template_args ++ [targ], derived_members ++ [arg'])
    | none =>
      processInlineMembers full_path part module_path current rest
        (scope, template_args, derived_members ++ [arg])

/-- First member of a module that is a submodule with the wanted name (the
member search in `find_module_and_scope`; the name comparison is modelled
span-insensitively, following the spec's `segment cannot be matched`). -/
def findSubmodule : List (Spanned ModuleMemberDeclaration) → String → Option Mew.Module
  | [], _ => none
  | d :: rest, n =>
    match d.value with
    | .Module m => if m.name.value = n then some m else findSubmodule rest n
    | _ => findSubmodule rest n

/-- The alias-building loop of `add_extension_to_scope`: one synthetic alias
per named member of the (normalized) extended module, with the member's
template parameters re-mangled at the extending module's path, each alias also
bound into the extending scope. -/
def buildExtensionAliases (ext : Spanned ExtendDirective) (module_path : List PathPart)
    (path : Spanned (List PathPart)) :
    List (Spanned ModuleMemberDeclaration) → Scope → List Alias × Scope
  | [], scope => ([], scope)
  | member :: rest, scope =>
    match member.value.name with
    | some name =>
      let alias_typ_path : Spanned (List PathPart) :=
        ⟨path.value ++ [PathPart.mk name none none], path.span⟩
      let als : Alias := .mk name
        ((member.value.template_parameters.getD []).map fun x =>
          ⟨x.value.withNameValue
            (mangle_template_parameter_name module_path name.value x.value.name.value), x.span⟩)
        ⟨.mk alias_typ_path, ext.span⟩
      let scope := scope.insert name.value (.ModuleMemberDeclaration module_path (.Alias als))
      let (as_, scope') := buildExtensionAliases ext module_path path rest scope
      (als :: as_, scope')
    | none => buildExtensionAliases ext module_path path rest scope

/-- The record of all mutually recursive resolver functions.  The source's
recursion has no structural bound (it walks module copies stored in the
scope), so the embedding builds this record by recursion on a fuel counter:
level `n + 1` bodies call level-`n` functions. -/
structure PassFns where
  statement_to_absolute_paths :
    Statement → List PathPart → Scope → ResolveM Statement
  compound_statement_to_absolute_paths :
    CompoundStatement → List PathPart → Scope → ResolveM CompoundStatement
  expression_to_absolute_paths :
    Expression → List PathPart → Scope → ResolveM Expression
  module_to_absolute_path :
    Mew.Module → List PathPart → Scope → ResolveM Mew.Module
  relative_path_to_absolute_path :
    Scope → List PathPart → Spanned (List PathPart) → ResolveM (Spanned (List PathPart))
  type_to_absolute_path :
    TypeExpression → List PathPart → Scope → ResolveM TypeExpression
  struct_to_absolute_path :
    Struct → List PathPart → Scope → ResolveM Struct
  decl_to_absolute_path :
    Declaration → List PathPart → Scope → ResolveM Declaration
  func_to_absolute_path :
    Function → List PathPart → Scope → ResolveM Function
  const_assert_to_absolute_path :
    ConstAssert → List PathPart → Scope → ResolveM ConstAssert
  alias_to_absolute_path :
    Alias → List PathPart → Scope → ResolveM Alias
  module_template_parameters_to_absolute_path :
    List PathPart → Mew.Module → Scope → ResolveM (List PathPart × Mew.Module × Scope)
  function_template_parameters_to_absolute_path :
    List PathPart → Function → Scope → ResolveM (Function × Scope)
  alias_template_parameters_to_absolute_path :
    List PathPart → Alias → Scope → ResolveM (Alias × Scope)
  const_assert_template_parameters_to_absolute_path :
    List PathPart → ConstAssert → Scope → ResolveM (ConstAssert × Scope)
  decl_template_parameters_to_absolute_path :
    List PathPart → Declaration → Scope → ResolveM (Declaration × Scope)
  struct_template_parameters_to_absolute_path :
    List PathPart → Struct → Scope → ResolveM (Struct × Scope)
  inline_template_args_to_absolute_path :
    List PathPart → Spanned (List PathPart) → Scope → ResolveM (Spanned (List PathPart) × Scope)
  add_usage_to_scope :
    Use → List PathPart → Scope → ResolveM (Use × Scope)
  find_module_and_scope :
    Scope → Spanned (List PathPart) → ResolveM (Mew.Module × Scope)
  update_module_scope :
    List PathPart → Mew.Module → Scope → ResolveM (List PathPart × Mew.Module × Scope)
  add_extensions_and_usages_to_scope :
    List PathPart → List (Spanned ModuleDirective) → List (Spanned ModuleMemberDeclaration) →
    Scope → ResolveM (List (Spanned ModuleDirective) × List (Spanned ModuleMemberDeclaration) × Scope)
  add_extension_to_scope :
    Spanned ExtendDirective → List PathPart → Scope → ResolveM (List Alias × Scope)
  translation_unit_to_absolute_path :
    List String → TranslationUnit → ResolveM TranslationUnit

/-- Walk a statement list, each statement under a clone of the same scope. -/
def walkStatements (p : PassFns) (module_path : List PathPart) (scope : Scope) :
    List Statement → ResolveM (List Statement)
  | [] => pure []
  | s :: rest => do
    let s' ← p.statement_to_absolute_paths s module_path scope
    let rest' ← walkStatements p module_path scope rest
    pure (s' :: rest')

/-- Walk an argument list, each expression under a clone of the same scope. -/
def walkExpressions (p : PassFns) (module_path : List PathPart) (scope : Scope) :
    List Expression → ResolveM (List Expression)
  | [] => pure []
  | e :: rest => do
    let e' ← p.expression_to_absolute_paths e module_path scope
    let rest' ← walkExpressions p module_path scope rest
    pure (e' :: rest')

/-- Absorb the `use` directives of a compound block into the scope, in order. -/
def addCompoundUsages (p : PassFns) (module_path : List PathPart) :
    List (Spanned CompoundDirective) → Scope →
    ResolveM (List (Spanned CompoundDirective) × Scope)
  | [], scope => pure ([], scope)
  | d :: rest, scope =>
    match d.value with
    | .Use usage => do
      let (usage', scope') ← p.add_usage_to_scope usage module_path scope
      let (rest', scope'') ← addCompoundUsages p module_path rest scope'
      pure (⟨.Use usage', d.span⟩ :: rest', scope'')

/-- Walk the else-if clauses of an if statement. -/
def walkElseIfClauses (p : PassFns) (module_path : List PathPart) (scope : Scope) :
    List (Expression × CompoundStatement) → ResolveM (List (Expression × CompoundStatement))
  | [] => pure []
  | (e, b) :: rest => do
    let e' ← p.expression_to_absolute_paths e module_path scope
    let b' ← p.compound_statement_to_absolute_paths b module_path scope
    let rest' ← walkElseIfClauses p module_path scope rest
    pure ((e', b') :: rest')

/-- Walk the case selectors of a switch clause. -/
def walkCaseSelectors (p : PassFns) (module_path : List PathPart) (scope : Scope) :
    List (Spanned CaseSelector) → ResolveM (List (Spanned CaseSelector))
  | [] => pure []
  | c :: rest =>
    match c.value with
    | .Default => do
      let rest' ← walkCaseSelectors p module_path scope rest
      pure (c :: rest')
    | .Expression e => do
      let e' ← p.expression_to_absolute_paths e module_path scope
      let rest' ← walkCaseSelectors p module_path scope rest
      pure (⟨.Expression e', c.span⟩ :: rest')

/-- Walk the clauses of a switch statement. -/
def walkSwitchClauses (p : PassFns) (module_path : List PathPart) (scope : Scope) :
    List SwitchClause → ResolveM (List SwitchClause)
  | [] => pure []
  | cl :: rest => do
    let sels ← walkCaseSelectors p module_path scope cl.case_selectors
    let body ← p.compound_statement_to_absolute_paths cl.body module_path scope
    let rest' ← walkSwitchClauses p module_path scope rest
    pure (.mk sels body :: rest')

/-- Walk the default values of (already renamed) module template parameters. -/
def walkTemplateParamDefaults (p : PassFns) (module_path : List PathPart) (scope : Scope) :
    List (Spanned TemplateParameter) → ResolveM (List (Spanned TemplateParameter))
  | [] => pure []
  | param :: rest => do
    let param' ← match param.value.default_value with
      | some dv => do
          let e ← p.expression_to_absolute_paths dv.value module_path scope
          pure (⟨param.value.withDefault (some ⟨e, dv.span⟩), param.span⟩ : Spanned TemplateParameter)
      | none => pure param
    let rest' ← walkTemplateParamDefaults p module_path scope rest
    pure (param' :: rest')

/-- The shared per-parameter loop of the function/alias/declaration/struct
template-parameter walkers: walk the default value under the scope so far,
then rename the parameter to its mangled form and bind both names. -/
def entityTemplateParamsLoop (p : PassFns) (module_path : List PathPart)
    (containing_name : String) :
    List (Spanned TemplateParameter) → Scope →
    ResolveM (List (Spanned TemplateParameter) × Scope)
  | [], scope => pure ([], scope)
  | param :: rest, scope => do
    let param1 ← match param.value.default_value with
      | some dv => do
          let e ← p.expression_to_absolute_paths dv.value module_path scope
          pure (⟨param.value.withDefault (some ⟨e, dv.span⟩), param.span⟩ : Spanned TemplateParameter)
      | none => pure param
    let old_name := param1.value.name.value
    let new_name := mangle_template_parameter_name module_path containing_name old_name
    let param2 : Spanned TemplateParameter := ⟨param1.value.withNameValue new_name, param1.span⟩
    let scope := (scope.insert new_name (.TemplateParam new_name)).insert old_name
      (.TemplateParam new_name)
    let (ps, scope') ← entityTemplateParamsLoop p module_path containing_name rest scope
    pure (param2 :: ps, scope')

/-- The per-parameter loop of the const-assert walker: walk the default value,
then bind the parameter under its original, unmangled name. -/
def constAssertTemplateParamsLoop (p : PassFns) (module_path : List PathPart) :
    List (Spanned TemplateParameter) → Scope →
    ResolveM (List (Spanned TemplateParameter) × Scope)
  | [], scope => pure ([], scope)
  | param :: rest, scope => do
    let param1 ← match param.value.default_value with
      | some dv => do
          let e ← p.expression_to_absolute_paths dv.value module_path scope
          pure (⟨param.value.withDefault (some ⟨e, dv.span⟩), param.span⟩ : Spanned TemplateParameter)
      | none => pure param
    let name := param1.value.name.value
    let scope := scope.insert name (.TemplateParam name)
    let (ps, scope') ← constAssertTemplateParamsLoop p module_path rest scope
    pure (param1 :: ps, scope')

/-- Walk the members of a struct. -/
def walkStructMembers (p : PassFns) (module_path : List PathPart) (scope : Scope) :
    List StructMember → ResolveM (List StructMember)
  | [] => pure []
  | m :: rest => do
    let t' ← p.type_to_absolute_path m.typ module_path scope
    let rest' ← walkStructMembers p module_path scope rest
    pure (.mk m.name t' :: rest')

/-- Walk the formal parameters of a function: each parameter's type under the
scope so far, then the parameter's name inserted as a formal parameter. -/
def walkFunctionParams (p : PassFns) (module_path : List PathPart) :
    List FunctionParameter → Scope → ResolveM (List FunctionParameter × Scope)
  | [], scope => pure ([], scope)
  | fp :: rest, scope => do
    let t' ← p.type_to_absolute_path fp.typ module_path scope
    let scope := scope.insert fp.name.value .FormalFunctionParameter
    let (rest', scope') ← walkFunctionParams p module_path rest scope
    pure (.mk fp.name t' :: rest', scope')

/-- Walk a module's member list, each member under a clone of the same scope. -/
def walkMembers (p : PassFns) (module_path : List PathPart) (scope : Scope) :
    List (Spanned ModuleMemberDeclaration) → ResolveM (List (Spanned ModuleMemberDeclaration))
  | [] => pure []
  | d :: rest => do
    let v' ← match d.value with
      | .Void => pure ModuleMemberDeclaration.Void
      | .Declaration decl => .Declaration <$> p.decl_to_absolute_path decl module_path scope
      | .Alias a => .Alias <$> p.alias_to_absolute_path a module_path scope
      | .Struct s => .Struct <$> p.struct_to_absolute_path s module_path scope
      | .Function f => .Function <$> p.func_to_absolute_path f module_path scope
      | .ConstAssert a => .ConstAssert <$> p.const_assert_to_absolute_path a module_path scope
      | .Module m => .Module <$> p.module_to_absolute_path m module_path scope
    let rest' ← walkMembers p module_path scope rest
    pure (⟨v', d.span⟩ :: rest')

/-- Walk the template arguments attached to a path part. -/
def walkTemplateArgs (p : PassFns) (module_path : List PathPart) (scope : Scope) :
    List (Spanned TemplateArg) → ResolveM (List (Spanned TemplateArg))
  | [] => pure []
  | arg :: rest => do
    let e ← p.expression_to_absolute_paths arg.value.expression.value module_path scope
    let arg' : Spanned TemplateArg := ⟨arg.value.withExpression ⟨e, arg.value.expression.span⟩, arg.span⟩
    let rest' ← walkTemplateArgs p module_path scope rest
    pure (arg' :: rest')

/-- The part-by-part loop of `inline_template_args_to_absolute_path`.
`current` accumulates the original parts, `full_path` the processed parts on
top of the rewritten-and-truncated first segment. -/
def inlinePartsLoop (p : PassFns) (module_path : List PathPart) (inner_scope : Scope) :
    List PathPart → Spanned (List PathPart) → Spanned (List PathPart) → Scope →
    ResolveM (List PathPart × Spanned (List PathPart) × Spanned (List PathPart) × Scope)
  | [], current, full_path, scope => pure ([], current, full_path, scope)
  | part :: rest, current, full_path, scope => do
    let current : Spanned (List PathPart) := ⟨current.value ++ [part], current.span⟩
    let template_args0 := part.template_args.getD []
    let part0 := part.withTemplateArgs none
    let (part1, template_args1, scope1) ←
      match part0.inline_template_args with
      | some inline_args => do
          let derived_name : Spanned String :=
            ((module_path.getLast?).map fun x => x.name).getD ⟨"", defaultSpan⟩
          let (dirs1, derived_members1, inner1) ←
            p.add_extensions_and_usages_to_scope module_path inline_args.directives [] inner_scope
          let (scope1, template_args2, derived_members2) :=
            processInlineMembers full_path part0 module_path current inline_args.members
              (scope, template_args0, derived_members1)
          let derived0 := Mew.Module.mk derived_name [] dirs1 derived_members2
          let derived1 ← p.module_to_absolute_path derived0 module_path inner1
          let inline' := InlineTemplateArgs.mk derived1.directives derived1.members
          pure (part0.withInlineTemplateArgs (some inline'), template_args2, scope1)
      | none => pure (part0, template_args0, scope)
    let part2 ←
      if template_args1.isEmpty then pure (part1.withTemplateArgs none)
      else do
        let targs' ← walkTemplateArgs p module_path scope1 template_args1
        pure (part1.withTemplateArgs (some targs'))
    let full_path : Spanned (List PathPart) := ⟨full_path.value ++ [part2], full_path.span⟩
    let (restParts, current', full_path', scope') ←
      inlinePartsLoop p module_path inner_scope rest current full_path scope1
    pure (part2 :: restParts, current', full_path', scope')

/-- The collection loop of `add_usage_to_scope`: each child's base path is
extended with the (already rewritten) parent path — appended after the
child's own segments, exactly as the source's `Vec::extend` does — and the
child is processed recursively. -/
def usageCollectionLoop (p : PassFns) (module_path : List PathPart) (parent_path : List PathPart) :
    List (Spanned Use) → Scope → ResolveM (List (Spanned Use) × Scope)
  | [], scope => pure ([], scope)
  | c :: rest, scope => do
    let extended := Use.mk ⟨c.value.path.value ++ parent_path, c.value.path.span⟩ c.value.content
    let (c', scope') ← p.add_usage_to_scope extended module_path scope
    let (rest', scope'') ← usageCollectionLoop p module_path parent_path rest scope'
    pure (⟨c', c.span⟩ :: rest', scope'')

/-- The hop loop of `find_module_and_scope`: process the current module into
scope, then descend into the submodule named by the next path segment. -/
def findModuleLoop (p : PassFns) (path : Spanned (List PathPart)) :
    List PathPart → Mew.Module → List PathPart → Scope → ResolveM (Mew.Module × Scope)
  | _, module, [], scope => pure (module, scope)
  | module_path, module, next :: remaining, scope => do
    let (mp1, m1, scope1) ← p.update_module_scope module_path module scope
    let (dirs, members, scope2) ←
      p.add_extensions_and_usages_to_scope mp1 m1.directives m1.members scope1
    match findSubmodule members next.name.value with
    | some m' => findModuleLoop p path mp1 m' remaining scope2
    | none =>
        let _ := dirs
        .error (.SymbolNotFound path.value path.span)

/-- The directive partition of `add_extensions_and_usages_to_scope`: use
directives are bound into scope (in order) and kept; extend directives are
set aside. -/
def partitionModuleDirectives (p : PassFns) (module_path : List PathPart) :
    List (Spanned ModuleDirective) → Scope →
    ResolveM (List (Spanned ModuleDirective) × List (Spanned ExtendDirective) × Scope)
  | [], scope => pure ([], [], scope)
  | d :: rest, scope =>
    match d.value with
    | .Use usage => do
        let (usage', scope') ← p.add_usage_to_scope usage module_path scope
        let (os, es, scope'') ← partitionModuleDirectives p module_path rest scope'
        pure (⟨.Use usage', d.span⟩ :: os, es, scope'')
    | .Extend ext => do
        let (os, es, scope') ← partitionModuleDirectives p module_path rest scope
        pure (os, ⟨ext, d.span⟩ :: es, scope')

/-- The extension loop of `add_extensions_and_usages_to_scope`: expand each
extend directive, append the generated alias members, rewrite the directive's
path, and keep the rewritten directive. -/
def extensionsLoop (p : PassFns) (module_path : List PathPart) :
    List (Spanned ExtendDirective) → List (Spanned ModuleMemberDeclaration) → Scope →
    ResolveM (List (Spanned ModuleDirective) × List (Spanned ModuleMemberDeclaration) × Scope)
  | [], members, scope => pure ([], members, scope)
  | ext :: rest, members, scope => do
    let (aliases, scope1) ← p.add_extension_to_scope ext module_path scope
    let members1 := members ++ aliases.map fun a =>
      (⟨.Alias a, ext.span⟩ : Spanned ModuleMemberDeclaration)
    let path' ← p.relative_path_to_absolute_path scope1 module_path ext.value.path
    let (ds, members2, scope2) ← extensionsLoop p module_path rest members1 scope1
    pure (⟨.Extend (.mk path'), ext.span⟩ :: ds, members2, scope2)

/-- The directive partition at translation-unit level. -/
def partitionGlobalDirectives (p : PassFns) (module_path : List PathPart) :
    List (Spanned GlobalDirective) → Scope →
    ResolveM (List (Spanned GlobalDirective) × List (Spanned ExtendDirective) × Scope)
  | [], scope => pure ([], [], scope)
  | d :: rest, scope =>
    match d.value with
    | .Use usage => do
        let (usage', scope') ← p.add_usage_to_scope usage module_path scope
        let (os, es, scope'') ← partitionGlobalDirectives p module_path rest scope'
        pure (⟨.Use usage', d.span⟩ :: os, es, scope'')
    | .Extend ext => do
        let (os, es, scope') ← partitionGlobalDirectives p module_path rest scope
        pure (os, ⟨ext, d.span⟩ :: es, scope')

/-- The extension loop at translation-unit level: generated aliases become new
global declarations. -/
def globalExtensionsLoop (p : PassFns) (module_path : List PathPart) :
    List (Spanned ExtendDirective) → Scope →
    ResolveM (List (Spanned GlobalDirective) × List (Spanned GlobalDeclaration) × Scope)
  | [], scope => pure ([], [], scope)
  | ext :: rest, scope => do
    let (aliases, scope1) ← p.add_extension_to_scope ext module_path scope
    let newDecls := aliases.map fun a => (⟨.Alias a, ext.span⟩ : Spanned GlobalDeclaration)
    let path' ← p.relative_path_to_absolute_path scope1 module_path ext.value.path
    let (ds, decls, scope2) ← globalExtensionsLoop p module_path rest scope1
    pure (⟨.Extend (.mk path'), ext.span⟩ :: ds, newDecls ++ decls, scope2)

/-- Walk the global declarations, each under a clone of the same scope. -/
def walkGlobalDeclarations (p : PassFns) (module_path : List PathPart) (scope : Scope) :
    List (Spanned GlobalDeclaration) → ResolveM (List (Spanned GlobalDeclaration))
  | [] => pure []
  | d :: rest => do
    let v' ← match d.value with
      | .Void => pure GlobalDeclaration.Void
      | .Declaration decl => .Declaration <$> p.decl_to_absolute_path decl module_path scope
      | .Alias a => .Alias <$> p.alias_to_absolute_path a module_path scope
      | .Struct s => .Struct <$> p.struct_to_absolute_path s module_path scope
      | .Function f => .Function <$> p.func_to_absolute_path f module_path scope
      | .ConstAssert a => .ConstAssert <$> p.const_assert_to_absolute_path a module_path scope
      | .Module m => .Module <$> p.module_to_absolute_path m module_path scope
    let rest' ← walkGlobalDeclarations p module_path scope rest
    pure (⟨v', d.span⟩ :: rest')

/-- Fuel exhaustion: every function of the zero-level record fails. -/
def passZero : PassFns where
  statement_to_absolute_paths := fun _ _ _ => .error .outOfFuel
  compound_statement_to_absolute_paths := fun _ _ _ => .error .outOfFuel
  expression_to_absolute_paths := fun _ _ _ => .error .outOfFuel
  module_to_absolute_path := fun _ _ _ => .error .outOfFuel
  relative_path_to_absolute_path := fun _ _ _ => .error .outOfFuel
  type_to_absolute_path := fun _ _ _ => .error .outOfFuel
  struct_to_absolute_path := fun _ _ _ => .error .outOfFuel
  decl_to_absolute_path := fun _ _ _ => .error .outOfFuel
  func_to_absolute_path := fun _ _ _ => .error .outOfFuel
  const_assert_to_absolute_path := fun _ _ _ => .error .outOfFuel
  alias_to_absolute_path := fun _ _ _ => .error .outOfFuel
  module_template_parameters_to_absolute_path := fun _ _ _ => .error .outOfFuel
  function_template_parameters_to_absolute_path := fun _ _ _ => .error .outOfFuel
  alias_template_parameters_to_absolute_path := fun _ _ _ => .error .outOfFuel
  const_assert_template_parameters_to_absolute_path := fun _ _ _ => .error .outOfFuel
  decl_template_parameters_to_absolute_path := fun _ _ _ => .error .outOfFuel
  struct_template_parameters_to_absolute_path := fun _ _ _ => .error .outOfFuel
  inline_template_args_to_absolute_path := fun _ _ _ => .error .outOfFuel
  add_usage_to_scope := fun _ _ _ => .error .outOfFuel
  find_module_and_scope := fun _ _ => .error .outOfFuel
  update_module_scope := fun _ _ _ => .error .outOfFuel
  add_extensions_and_usages_to_scope := fun _ _ _ _ => .error .outOfFuel
  add_extension_to_scope := fun _ _ _ => .error .outOfFuel
  translation_unit_to_absolute_path := fun _ _ => .error .outOfFuel

/-- One level of the pass: each body is the direct translation of the
corresponding source function, with recursive calls going through `p`. -/
def passSucc (p : PassFns) : PassFns where
  statement_to_absolute_paths := fun statement module_path scope =>
    match statement with
    | .Void => pure .Void
    | .Compound c => do
        let c' ← p.compound_statement_to_absolute_paths c module_path scope
        pure (.Compound c')
    | .Assignment lhs rhs => do
        let lhs' ← p.expression_to_absolute_paths lhs module_path scope
        let rhs' ← p.expression_to_absolute_paths rhs module_path scope
        pure (.Assignment lhs' rhs')
    | .Increment i => do
        let i' ← p.expression_to_absolute_paths i module_path scope
        pure (.Increment i')
    | .Decrement d => do
        let d' ← p.expression_to_absolute_paths d module_path scope
        pure (.Decrement d')
    | .If if_clause else_if_clauses else_clause => do
        let c ← p.expression_to_absolute_paths if_clause.1 module_path scope
        let b ← p.compound_statement_to_absolute_paths if_clause.2 module_path scope
        let eis ← walkElseIfClauses p module_path scope else_if_clauses
        let el ← match else_clause with
          | some e => some <$> p.compound_statement_to_absolute_paths e module_path scope
          | none => pure none
        pure (.If (c, b) eis el)
    | .Switch expression clauses => do
        let e' ← p.expression_to_absolute_paths expression module_path scope
        let cls ← walkSwitchClauses p module_path scope clauses
        pure (.Switch e' cls)
    | .Loop l => do
        let (bodyDirs, scope) ← addCompoundUsages p module_path l.body.directives scope
        let body1 ← p.compound_statement_to_absolute_paths
          (.mk bodyDirs l.body.statements) module_path scope
        let scope := collectTopLevelLoopLocals body1.statements scope
        match l.continuing with
        | none => pure (.Loop (.mk body1 none))
        | some cont => do
          let (contDirs, scope) ← addCompoundUsages p module_path cont.body.directives scope
          let body2 ← p.compound_statement_to_absolute_paths body1 module_path scope
          let scope := collectTopLevelLoopLocals cont.body.statements scope
          let break_if' ← match cont.break_if with
            | some e => some <$> p.expression_to_absolute_paths e module_path scope
            | none => pure none
          pure (.Loop (.mk body2 (some (.mk (.mk contDirs cont.body.statements) break_if'))))
    | .For initializer condition update body => do
        let (init', scope) ← match initializer with
          | some init => do
              let i' ← p.statement_to_absolute_paths init module_path scope
              let scope := forInitScope i' scope
              pure (some i', scope)
          | none => pure (none, scope)
        let cond' ← match condition with
          | some cond => some <$> p.expression_to_absolute_paths cond module_path scope
          | none => pure none
        let upd' ← match update with
          | some upd => some <$> p.statement_to_absolute_paths upd module_path scope
          | none => pure none
        let body' ← p.compound_statement_to_absolute_paths body module_path scope
        pure (.For init' cond' upd' body')
    | .While condition body => do
        let c' ← p.expression_to_absolute_paths condition module_path scope
        let b' ← p.compound_statement_to_absolute_paths body module_path scope
        pure (.While c' b')
    | .Break => pure .Break
    | .Continue => pure .Continue
    | .Return r =>
        match r with
        | some r => do
            let r' ← p.expression_to_absolute_paths r module_path scope
            pure (.Return (some r'))
        | none => pure (.Return none)
    | .Discard => pure .Discard
    | .FunctionCall path arguments => do
        let path' ← p.relative_path_to_absolute_path scope module_path path
        let args' ← walkExpressions p module_path scope arguments
        pure (.FunctionCall path' args')
    | .ConstAssert a => do
        let e' ← p.expression_to_absolute_paths a.expression module_path scope
        pure (.ConstAssert (.mk a.template_parameters e'))
    | .Declaration d => do
        let init' ← match d.declaration.initializer with
          | some init => some <$> p.expression_to_absolute_paths init module_path scope
          | none => pure none
        let typ' ← match d.declaration.typ with
          | some typ => some <$> p.type_to_absolute_path typ module_path scope
          | none => pure none
        let scope := scope.insert d.declaration.name.value .LocalDeclaration
        let stmts ← walkStatements p module_path scope d.statements
        pure (.Declaration (.mk
          (.mk d.declaration.name d.declaration.template_parameters typ' init') stmts))
  compound_statement_to_absolute_paths := fun statement module_path scope => do
    let (dirs, scope) ← addCompoundUsages p module_path statement.directives scope
    let stmts ← walkStatements p module_path scope statement.statements
    pure (.mk dirs stmts)
  expression_to_absolute_paths := fun expression module_path scope =>
    match expression with
    | .Literal v => pure (.Literal v)
    | .Parenthesized inner => do
        let inner' ← p.expression_to_absolute_paths inner module_path scope
        pure (.Parenthesized inner')
    | .NamedComponent base component => do
        let base' ← p.expression_to_absolute_paths base module_path scope
        pure (.NamedComponent base' component)
    | .Indexing base index => do
        let base' ← p.expression_to_absolute_paths base module_path scope
        pure (.Indexing base' index)
    | .Unary operand => do
        let operand' ← p.expression_to_absolute_paths operand module_path scope
        pure (.Unary operand')
    | .Binary left right => do
        let left' ← p.expression_to_absolute_paths left module_path scope
        let right' ← p.expression_to_absolute_paths right module_path scope
        pure (.Binary left' right')
    | .FunctionCall path arguments => do
        let path' ← p.relative_path_to_absolute_path scope module_path path
        let args' ← walkExpressions p module_path scope arguments
        pure (.FunctionCall path' args')
    | .Identifier path => do
        let path' ← p.relative_path_to_absolute_path scope module_path path
        pure (.Identifier path')
    | .Type typ => do
        let typ' ← p.type_to_absolute_path typ module_path scope
        pure (.Type typ')
  module_to_absolute_path := fun module module_path scope => do
    let (mp1, m1, scope1) ← p.update_module_scope module_path module scope
    let (dirs, members, scope2) ←
      p.add_extensions_and_usages_to_scope mp1 m1.directives m1.members scope1
    let members' ← walkMembers p mp1 scope2 members
    pure (.mk m1.name m1.template_parameters dirs members')
  relative_path_to_absolute_path := fun scope module_path path => do
    let (path1, scope1) ← p.inline_template_args_to_absolute_path module_path path scope
    append_from_scope scope1 path1
  type_to_absolute_path := fun typ module_path scope => do
    let path' ← p.relative_path_to_absolute_path scope module_path typ.path
    pure (typ.withPath path')
  struct_to_absolute_path := fun strct module_path scope => do
    let (strct1, scope1) ← p.struct_template_parameters_to_absolute_path module_path strct scope
    let members' ← walkStructMembers p module_path scope1 strct1.members
    pure (.mk strct1.name strct1.template_parameters members')
  decl_to_absolute_path := fun declaration module_path scope => do
    let (decl1, scope1) ← p.decl_template_parameters_to_absolute_path module_path declaration scope
    let init' ← match decl1.initializer with
      | some init => some <$> p.expression_to_absolute_paths init module_path scope1
      | none => pure none
    let typ' ← match decl1.typ with
      | some typ => some <$> p.type_to_absolute_path typ module_path scope1
      | none => pure none
    pure (.mk decl1.name decl1.template_parameters typ' init')
  func_to_absolute_path := fun func module_path scope => do
    let (func1, scope1) ← p.function_template_parameters_to_absolute_path module_path func scope
    let rt ← match func1.return_type with
      | some r => do
          let path' ← p.relative_path_to_absolute_path scope1 module_path r.path
          pure (some (r.withPath path'))
      | none => pure none
    let (params', scope2) ← walkFunctionParams p module_path func1.parameters scope1
    let body' ← p.compound_statement_to_absolute_paths func1.body module_path scope2
    pure (.mk func1.name func1.template_parameters params' rt body')
  const_assert_to_absolute_path := fun assrt module_path scope => do
    let (assrt1, scope1) ←
      p.const_assert_template_parameters_to_absolute_path module_path assrt scope
    let e' ← p.expression_to_absolute_paths assrt1.expression module_path scope1
    pure (.mk assrt1.template_parameters e')
  alias_to_absolute_path := fun als module_path scope => do
    let (alias1, scope1) ← p.alias_template_parameters_to_absolute_path module_path als scope
    let t' ← p.type_to_absolute_path alias1.typ.value module_path scope1
    pure (.mk alias1.name alias1.template_parameters ⟨t', alias1.typ.span⟩)
  module_template_parameters_to_absolute_path := fun module_path module scope => do
    let (params1, template_args, scope1) :=
      mangleModuleTemplateParams module_path module.name.value module.template_parameters scope
    let module_path1 :=
      if module.name.value = "" then module_path
      else module_path ++ [PathPart.mk module.name
        (if template_args.isEmpty then none else some template_args) none]
    let params2 ← walkTemplateParamDefaults p module_path1 scope1 params1
    pure (module_path1, .mk module.name params2 module.directives module.members, scope1)
  function_template_parameters_to_absolute_path := fun module_path func scope => do
    let (params', scope') ←
      entityTemplateParamsLoop p module_path func.name.value func.template_parameters scope
    pure (.mk func.name params' func.parameters func.return_type func.body, scope')
  alias_template_parameters_to_absolute_path := fun module_path als scope => do
    let (params', scope') ←
      entityTemplateParamsLoop p module_path als.name.value als.template_parameters scope
    pure (.mk als.name params' als.typ, scope')
  const_assert_template_parameters_to_absolute_path := fun module_path assrt scope => do
    let (params', scope') ←
      constAssertTemplateParamsLoop p module_path assrt.template_parameters scope
    pure (.mk params' assrt.expression, scope')
  decl_template_parameters_to_absolute_path := fun module_path declaration scope => do
    let (params', scope') ← entityTemplateParamsLoop p module_path declaration.name.value
      declaration.template_parameters scope
    pure (.mk declaration.name params' declaration.typ declaration.initializer, scope')
  struct_template_parameters_to_absolute_path := fun module_path strct scope => do
    let (params', scope') ←
      entityTemplateParamsLoop p module_path strct.name.value strct.template_parameters scope
    pure (.mk strct.name params' strct.members, scope')
  inline_template_args_to_absolute_path := fun module_path path scope => do
    let current0 : Spanned (List PathPart) := ⟨[], path.span⟩
    let full_path0 : Spanned (List PathPart) := ⟨path.value.take 1, path.span⟩
    let full_path1 ← append_from_scope scope full_path0
    let full_path2 : Spanned (List PathPart) :=
      if full_path1.value.isEmpty then full_path1
      else ⟨full_path1.value.dropLast, full_path1.span⟩
    let (parts', _, _, scope') ←
      inlinePartsLoop p module_path scope path.value current0 full_path2 scope
    pure (⟨parts', path.span⟩, scope')
  add_usage_to_scope := fun usage module_path scope => do
    let path1 ←
      if usage.path.value.isEmpty then pure usage.path
      else p.relative_path_to_absolute_path scope module_path usage.path
    match usage.content.value with
    | .Item item => do
        let usage_path : Spanned (List PathPart) :=
          ⟨path1.value ++ [PathPart.mk item.name item.template_args item.inline_template_args],
           path1.span⟩
        let usage_path' ← p.relative_path_to_absolute_path scope module_path usage_path
        let key := match item.rename with
          | some rename => rename.value
          | none => item.name.value
        let scope' := scope.insert key (.UseDeclaration usage_path'.value item.template_args)
        pure (Use.mk path1 usage.content, scope')
    | .Collection cs => do
        let (cs', scope') ← usageCollectionLoop p module_path path1.value cs scope
        pure (Use.mk path1 ⟨.Collection cs', usage.content.span⟩, scope')
  find_module_and_scope := fun scope path =>
    match path.value with
    | [] => .error .invariantViolation
    | fst :: remaining =>
      match scope.find fst.name.value with
      | some (.ModuleMemberDeclaration _ (.Module m)) => findModuleLoop p path [] m remaining scope
      | some (.GlobalDeclaration (.Module m)) => findModuleLoop p path [] m remaining scope
      | some _ => .error .invariantViolation
      | none => .error (.SymbolNotFound path.value path.span)
  update_module_scope := fun module_path module scope => do
    let (mp1, m1, scope1) ← p.module_template_parameters_to_absolute_path module_path module scope
    let scope2 := preIndexMembers mp1 m1.members scope1
    pure (mp1, m1, scope2)
  add_extensions_and_usages_to_scope := fun module_path directives members scope => do
    let (other_dirs, extend_dirs, scope1) ←
      partitionModuleDirectives p module_path directives scope
    let (ext_dirs_out, members1, scope2) ←
      extensionsLoop p module_path extend_dirs members scope1
    pure (ext_dirs_out ++ other_dirs, members1, scope2)
  add_extension_to_scope := fun ext module_path scope => do
    let (module0, module_scope) ← p.find_module_and_scope scope ext.value.path
    let extend_path ← p.relative_path_to_absolute_path scope module_path ext.value.path
    let module1 ← p.module_to_absolute_path module0 extend_path.value module_scope
    let path0 ← p.relative_path_to_absolute_path scope module_path ext.value.path
    let path1 : Spanned (List PathPart) :=
      ⟨path0.value.map fun part => part.withInlineTemplateArgs none, path0.span⟩
    let (aliases, scope') := buildExtensionAliases ext module_path path1 module1.members scope
    pure (aliases, scope')
  translation_unit_to_absolute_path := fun builtins translation_unit => do
    let module_path : List PathPart := []
    let scope0 : Scope := (builtins.map fun b => (b, ScopeMember.BuiltIn)).reverse
    let scope1 := preIndexGlobals translation_unit.global_declarations scope0
    let (other_dirs, extend_dirs, scope2) ←
      partitionGlobalDirectives p module_path translation_unit.global_directives scope1
    let (ext_dirs_out, new_globals, scope3) ←
      globalExtensionsLoop p module_path extend_dirs scope2
    let decls' ← walkGlobalDeclarations p module_path scope3
      (translation_unit.global_declarations ++ new_globals)
    pure ⟨other_dirs ++ ext_dirs_out, decls'⟩

/-- The fuel-indexed tower of resolver functions. -/
def pass : Nat → PassFns
  | 0 => passZero
  | fuel + 1 => passSucc (pass fuel)

/-- The public entry point `Resolver::resolve_mut`, parameterized by the
builtin catalog's name set (an external read-only table per the spec) and by
the embedding's fuel. -/
def resolve_mut (builtins : List String) (fuel : Nat) (tu : TranslationUnit) :
    ResolveM TranslationUnit :=
  (pass fuel).translation_unit_to_absolute_path builtins tu

/-- Fuel-indexed entry into the statement walker. -/
def statement_to_absolute_paths (fuel : Nat) :
    Statement → List PathPart → Scope → ResolveM Statement :=
  (pass fuel).statement_to_absolute_paths

/-- Fuel-indexed entry into the expression walker. -/
def expression_to_absolute_paths (fuel : Nat) :
    Expression → List PathPart → Scope → ResolveM Expression :=
  (pass fuel).expression_to_absolute_paths

/-- Fuel-indexed entry into the type walker. -/
def type_to_absolute_path (fuel : Nat) :
    TypeExpression → List PathPart → Scope → ResolveM TypeExpression :=
  (pass fuel).type_to_absolute_path

/-- Fuel-indexed entry into the use-directive processor. -/
def add_usage_to_scope (fuel : Nat) :
    Use → List PathPart → Scope → ResolveM (Use × Scope) :=
  (pass fuel).add_usage_to_scope

/-- Fuel-indexed entry into the extend-directive processor. -/
def add_extension_to_scope (fuel : Nat) :
    Spanned ExtendDirective → List PathPart → Scope → ResolveM (List Alias × Scope) :=
  (pass fuel).add_extension_to_scope

/-- Fuel-indexed entry into the path rewriter front end. -/
def relative_path_to_absolute_path (fuel : Nat) :
    Scope → List PathPart → Spanned (List PathPart) → ResolveM (Spanned (List PathPart)) :=
  (pass fuel).relative_path_to_absolute_path

/-- The spec's mangling formula (section 4.3), stated as written there: join
with a single underscore the escaped module-path segment names followed by
the escaped containing name, then append an underscore and the escaped old
name. -/
def spec_mangle_formula (module_path : List PathPart) (containing_name old : String) : String :=
  joinWithUnderscore ((module_path.map fun seg => escapeUnderscores seg.name.value)
    ++ [escapeUnderscores containing_name]) ++ "_" ++ escapeUnderscores old

/-- Character-level underscore escaping (the `data` image of
`escapeUnderscores`). -/
def escList (l : List Char) : List Char :=
  l.flatMap fun c => if c = '_' then ['_', '_'] else [c]

/-- Character-level joining with single underscores (the `data` image of
`joinWithUnderscore`). -/
def joinChars : List (List Char) → List Char
  | [] => []
  | [s] => s
  | s :: rest => s ++ '_' :: joinChars rest

/-- Scope members whose `append_from_scope` arm leaves the path's segment list
unchanged up to a rename: builtins, locals, formal parameters, template
parameters, plus the inline bindings produced by inline-argument expansion. -/
def headBindingOk : ScopeMember → Prop
  | .LocalDeclaration => True
  | .BuiltIn => True
  | .FormalFunctionParameter => True
  | .TemplateParam _ => True
  | .Inline _ => True
  | _ => False

/-- A path is absolutely headed when it is empty, or its first segment is a
root declaration name, or its first segment is bound in scope to one of the
`headBindingOk` member kinds. -/
def absoluteHeaded (scope : Scope) (roots : List String) : List PathPart → Prop
  | [] => True
  | fst :: _ =>
      fst.name.value ∈ roots ∨
      ∃ s, scope.find fst.name.value = some s ∧ headBindingOk s

/-- Well-formedness of a scope with respect to the translation-unit root
names: every stored module path is itself absolutely headed (and nonempty for
use/inline bindings, empty module-member paths only for root members), global
bindings name root declarations, and the renamed form of a template parameter
is again resolvable. -/
def ScopeOk (scope : Scope) (roots : List String) : Prop :=
  ∀ n sm, scope.find n = some sm →
    match sm with
    | .ModuleMemberDeclaration mp _ => (mp = [] → n ∈ roots) ∧ absoluteHeaded scope roots mp
    | .UseDeclaration mp _ => mp ≠ [] ∧ absoluteHeaded scope roots mp
    | .Inline mp => mp ≠ [] ∧ absoluteHeaded scope roots mp
    | .GlobalDeclaration _ => n ∈ roots
    | .TemplateParam new_name => ∃ s, scope.find new_name = some s ∧ headBindingOk s
    | _ => True

/-- The names of the declarations at the translation-unit root. -/
def rootDeclNames (tu : TranslationUnit) : List String :=
  tu.global_declarations.filterMap fun d => d.value.name.map fun n => n.value

/-- Whether a declaration statement declares the name `x`, directly or
transitively through trailing declaration statements (the membership mirror
of the loop-local collector). -/
def declStatementDeclaresLocal : DeclarationStatement → String → Bool
  | .mk decl stmts, x => decl.name.value == x || go stmts x
where
  /-- Fold over the trailing statements, descending into declarations. -/
  go : List Statement → String → Bool
  | [], _ => false
  | s :: rest, x =>
    match s with
    | .Declaration d => declStatementDeclaresLocal d x || go rest x
    | _ => go rest x

/-- Whether some top-level declaration statement of a statement list declares
`x` (the membership mirror of `collectTopLevelLoopLocals`). -/
def stmtsDeclareLocal : List Statement → String → Bool
  | [], _ => false
  | s :: rest, x =>
    match s with
    | .Declaration d => declStatementDeclaresLocal d x || stmtsDeclareLocal rest x
    | _ => stmtsDeclareLocal rest x

end Resolver

namespace Checks

open Mew Resolver

/-- A fixed span for the concrete fixtures. -/
def sp : Span := ⟨0, 0⟩

/-- Wrap a value with the fixture span. -/
def spv {α : Type} (v : α) : Spanned α := ⟨v, sp⟩

/-- A bare path part with the given name. -/
def ppart (n : String) : PathPart := .mk ⟨n, sp⟩ none none

/-- A template argument carried by the fixture use binding of C2. -/
def c2_targ : Spanned TemplateArg := ⟨.mk ⟨.Literal 1, sp⟩ none, sp⟩

/-- A scope binding `g` to an imported symbol `A::f` with template arguments. -/
def c2_scope : Scope := [("g", .UseDeclaration [ppart "A", ppart "f"] (some [c2_targ]))]

/-- Fixture for C6: `fn c` inside module `B` inside module `A`. -/
def c6_fn_c : Mew.Function := .mk ⟨"c", sp⟩ [] [] none (.mk [] [])

/-- Fixture for C6: module `B { fn c }`. -/
def c6_modB : Mew.Module := .mk ⟨"B", sp⟩ [] [] [spv (.Function c6_fn_c)]

/-- Fixture for C6: module `A { mod B { fn c } }`. -/
def c6_modA : Mew.Module := .mk ⟨"A", sp⟩ [] [] [spv (.Module c6_modB)]

/-- Fixture for C6: the root scope binding `A`. -/
def c6_scope : Scope := [("A", .GlobalDeclaration (.Module c6_modA))]

/-- Fixture for C6: the directive `use A::{B::c}`. -/
def c6_use : Use := .mk ⟨[ppart "A"], sp⟩
  ⟨.Collection [⟨.mk ⟨[ppart "B"], sp⟩ ⟨.Item (.mk ⟨"c", sp⟩ none none none), sp⟩, sp⟩], sp⟩

/-- Fixture for C9: a translation unit with an empty module `A` and the
directive `extend A::B` (the hop `B` does not exist). -/
def c9_tu : TranslationUnit :=
  ⟨[spv (.Extend (.mk ⟨[ppart "A", ppart "B"], sp⟩))],
   [spv (.Module (.mk ⟨"A", sp⟩ [] [] []))]⟩

/-- Fixture for C1: `fn f(p: i32) { return p::y; }` — a two-segment path whose
head names a formal parameter. -/
def c1_fn : Mew.Function := .mk ⟨"f", sp⟩ []
  [.mk ⟨"p", sp⟩ (.mk ⟨[ppart "i32"], sp⟩)] none
  (.mk [] [.Return (some (.Identifier ⟨[ppart "p", ppart "y"], sp⟩))])

/-- Fixture for C1: the surrounding translation unit. -/
def c1_tu : TranslationUnit := ⟨[], [spv (.Function c1_fn)]⟩

/-- Fixture for C7: `let x = x;` — the initializer references the declared
name itself. -/
def c7_selfref : DeclarationStatement :=
  .mk (.mk ⟨"x", sp⟩ [] none (some (.Identifier ⟨[ppart "x"], sp⟩))) []

/-- Fixture for C7: `let x = 1; return x;` — a trailing statement references
the declared name. -/
def c7_trailing : DeclarationStatement :=
  .mk (.mk ⟨"x", sp⟩ [] none (some (.Literal 1)))
    [.Return (some (.Identifier ⟨[ppart "x"], sp⟩))]

/-- Fixture for C8 (scenario S5): `loop { let n = 1; } continuing { break_if n }`. -/
def c8_loop : LoopStatement :=
  .mk (.mk [] [.Declaration (.mk (.mk ⟨"n", sp⟩ [] none (some (.Literal 1))) [])])
    (some (.mk (.mk [] []) (some (.Identifier ⟨[ppart "n"], sp⟩))))

/-- Fixture for C4: `fn f` inside module `A`. -/
def c4_fn : Mew.Function := .mk ⟨"f", sp⟩ [] [] none (.mk [] [])

/-- Fixture for C4: module `A { fn f }`. -/
def c4_modA : Mew.Module := .mk ⟨"A", sp⟩ [] [] [spv (.Function c4_fn)]

/-- Fixture for C4: the root scope binding `A`. -/
def c4_scope : Scope := [("A", .GlobalDeclaration (.Module c4_modA))]

/-- Fixture for C4: the directive `extend A` at the root. -/
def c4_ext : Spanned ExtendDirective := ⟨.mk ⟨[ppart "A"], sp⟩, sp⟩

/-- Fixture for C3: a translation unit with `fn f<T>()`. -/
def c3_tu : TranslationUnit :=
  ⟨[], [spv (.Function (.mk ⟨"f", sp⟩ [spv (.mk ⟨"T", sp⟩ none)] [] none (.mk [] [])))]⟩

/-- The template-parameter names of the first global function (used to tell
apart the first and second run of the pass on `c3_tu`). -/
def firstFnParamNames (tu : TranslationUnit) : List String :=
  match tu.global_declarations with
  | ⟨.Function f, _⟩ :: _ => f.template_parameters.map fun pr => pr.value.name.value
  | _ => []

/-! ## The plain fragment (for C3): no directives, no modules, no template
parameters, no template or inline arguments on path parts.  On this fragment
a successful pass is the identity, hence idempotent. -/

/-- A path part is plain when it carries no template or inline arguments. -/
def plainPathPart : PathPart → Bool
  | .mk _ targs inline => targs.isNone && inline.isNone

/-- Every part of the path is plain. -/
def plainPath (l : List PathPart) : Bool := l.all plainPathPart

/-- A type expression is plain when its path is. -/
def plainTypeExpression (t : TypeExpression) : Bool := plainPath t.path.value

mutual

/-- Plain expressions: plain paths everywhere, no inline blocks. -/
def plainExpression : Expression → Bool
  | .Literal _ => true
  | .Parenthesized inner => plainExpression inner
  | .NamedComponent base _ => plainExpression base
  | .Indexing base index => plainExpression base && plainExpression index
  | .Unary operand => plainExpression operand
  | .Binary left right => plainExpression left && plainExpression right
  | .FunctionCall p args => plainPath p.value && plainExpressions args
  | .Identifier p => plainPath p.value
  | .Type t => plainTypeExpression t

/-- Plainness of an argument list. -/
def plainExpressions : List Expression → Bool
  | [] => true
  | e :: rest => plainExpression e && plainExpressions rest

end

/-- A declaration (entity) is plain when it has no template parameters and
plain type and initializer. -/
def plainDeclaration : Declaration → Bool
  | .mk _ tps typ init =>
    tps.isEmpty
      && (match typ with | some t => plainTypeExpression t | none => true)
      && (match init with | some e => plainExpression e | none => true)

mutual

/-- Plain statements. -/
def plainStatement : Statement → Bool
  | .Void => true
  | .Compound c => plainCompound c
  | .Assignment lhs rhs => plainExpression lhs && plainExpression rhs
  | .Increment e => plainExpression e
  | .Decrement e => plainExpression e
  | .If (cond, cbody) else_if_clauses else_clause =>
    plainExpression cond && plainCompound cbody
      && plainElseIfs else_if_clauses
      && (match else_clause with | some c => plainCompound c | none => true)
  | .Switch e clauses => plainExpression e && plainSwitchClauses clauses
  | .Loop (.mk body continuing) =>
    plainCompound body
      && (match continuing with
          | some (.mk cbody brkIf) => plainCompound cbody
              && (match brkIf with | some e => plainExpression e | none => true)
          | none => true)
  | .For initializer condition update body =>
    (match initializer with | some s => plainStatement s | none => true)
      && (match condition with | some e => plainExpression e | none => true)
      && (match update with | some s => plainStatement s | none => true)
      && plainCompound body
  | .While condition body => plainExpression condition && plainCompound body
  | .Break => true
  | .Continue => true
  | .Return e => match e with | some e => plainExpression e | none => true
  | .Discard => true
  | .FunctionCall p args => plainPath p.value && plainExpressions args
  | .ConstAssert a => a.template_parameters.isEmpty && plainExpression a.expression
  | .Declaration d => plainDeclStatement d

/-- Plainness of a declaration statement: plain declaration, plain trailing
statements. -/
def plainDeclStatement : DeclarationStatement → Bool
  | .mk decl stmts => plainDeclaration decl && plainStatements stmts

/-- Plainness of a statement list. -/
def plainStatements : List Statement → Bool
  | [] => true
  | s :: rest => plainStatement s && plainStatements rest

/-- A compound statement is plain when it has no directives and plain
statements. -/
def plainCompound : CompoundStatement → Bool
  | .mk dirs stmts => dirs.isEmpty && plainStatements stmts

/-- Plainness of else-if clauses. -/
def plainElseIfs : List (Expression × CompoundStatement) → Bool
  | [] => true
  | (e, b) :: rest => plainExpression e && plainCompound b && plainElseIfs rest

/-- Plainness of switch clauses. -/
def plainSwitchClauses : List SwitchClause → Bool
  | [] => true
  | .mk sels body :: rest =>
    plainCaseSelectors sels && plainCompound body && plainSwitchClauses rest

/-- Plainness of case selectors. -/
def plainCaseSelectors : List (Spanned CaseSelector) → Bool
  | [] => true
  | c :: rest =>
    (match c.value with | .Default => true | .Expression e => plainExpression e)
      && plainCaseSelectors rest

end

/-- A function is plain when it has no template parameters, plain parameter
types, plain return type and a plain body. -/
def plainFunction (f : Mew.Function) : Bool :=
  f.template_parameters.isEmpty
    && (f.parameters.all fun p => plainTypeExpression p.typ)
    && (match f.return_type with | some r => plainTypeExpression r | none => true)
    && plainCompound f.body

/-- A struct is plain when it has no template parameters and plain member
types. -/
def plainStruct (s : Struct) : Bool :=
  s.template_parameters.isEmpty && (s.members.all fun m => plainTypeExpression m.typ)

/-- An alias is plain when it has no template parameters and a plain type. -/
def plainAlias (a : Alias) : Bool :=
  a.template_parameters.isEmpty && plainTypeExpression a.typ.value

/-- A const-assert is plain when it has no template parameters and a plain
expression. -/
def plainConstAssert (c : ConstAssert) : Bool :=
  c.template_parameters.isEmpty && plainExpression c.expression

/-- Plain global declarations; modules are excluded from the fragment. -/
def plainGlobalDeclaration : GlobalDeclaration → Bool
  | .Void => true
  | .Declaration d => plainDeclaration d
  | .Alias a => plainAlias a
  | .Struct s => plainStruct s
  | .Function f => plainFunction f
  | .ConstAssert c => plainConstAssert c
  | .Module _ => false

/-- A plain translation unit: no global directives, plain declarations. -/
def plainTranslationUnit (tu : TranslationUnit) : Bool :=
  tu.global_directives.isEmpty
    && (tu.global_declarations.all fun d => plainGlobalDeclaration d.value)

/-- Scope members whose rewriter arm leaves a path entirely unchanged. -/
def passiveMember : ScopeMember → Prop
  | .LocalDeclaration => True
  | .BuiltIn => True
  | .FormalFunctionParameter => True
  | .GlobalDeclaration _ => True
  | _ => False

/-- All bindings of the scope are passive. -/
def PassiveScope (s : Scope) : Prop :=
  ∀ n sm, s.find n = some sm → passiveMember sm

/-- The result of the first run of the pass on `c3_tu`: the template parameter
`T` has been mangled to `f_T`. -/
def c3_tu1 : TranslationUnit :=
  ⟨[], [spv (.Function (.mk ⟨"f", sp⟩ [spv (.mk ⟨"f_T", sp⟩ none)] [] none (.mk [] [])))]⟩

/-- The result of the second run of the pass on `c3_tu1`: the parameter is
mangled again, to `f_f__T`. -/
def c3_tu2 : TranslationUnit :=
  ⟨[], [spv (.Function (.mk ⟨"f", sp⟩ [spv (.mk ⟨"f_f__T", sp⟩ none)] [] none (.mk [] [])))]⟩

/-- A plain fixture: `fn f() {} fn g() { f(); }`. -/
def c3w_tu : TranslationUnit :=
  ⟨[], [spv (.Function (.mk ⟨"f", sp⟩ [] [] none (.mk [] []))),
        spv (.Function (.mk ⟨"g", sp⟩ [] [] none
          (.mk [] [.FunctionCall ⟨[ppart "f"], sp⟩ []])))]⟩

/-! ## General lemmas about the embedding -/

theorem ok_bind {α β : Type} (v : α) (k : α → ResolveM β) :
    (Except.ok v >>= k) = k v := rfl

theorem pure_bind_resolve {α β : Type} (v : α) (k : α → ResolveM β) :
    ((pure v : ResolveM α) >>= k) = k v := rfl

theorem error_bind {α β : Type} (e : ResolverError) (k : α → ResolveM β) :
    ((Except.error e : ResolveM α) >>= k) = .error e := rfl

theorem scope_find_insert (s : Scope) (k : String) (v : ScopeMember) (x : String) :
    Scope.find (s.insert k v) x = if k = x then some v else s.find x := rfl

/-! ## Lemmas for the mangling claims (C5) -/

theorem escapeUnderscores_data (s : String) :
    (escapeUnderscores s).data = escList s.data := rfl

theorem underscore_data : ("_" : String).data = ['_'] := rfl

theorem joinWithUnderscore_data :
    ∀ l : List String, (joinWithUnderscore l).data = joinChars (l.map String.data)
  | [] => rfl
  | [_] => rfl
  | s :: s' :: rest => by
    show (s ++ "_" ++ joinWithUnderscore (s' :: rest)).data
      = s.data ++ '_' :: joinChars ((s' :: rest).map String.data)
    rw [String.data_append, String.data_append, joinWithUnderscore_data (s' :: rest),
      underscore_data]
    simp

theorem escList_of_not_mem : ∀ {l : List Char}, '_' ∉ l → escList l = l
  | [], _ => rfl
  | c :: rest, h => by
    have hc : ¬ c = '_' := fun hc => h (hc ▸ List.mem_cons_self c rest)
    have hr : '_' ∉ rest := fun hr => h (List.mem_cons_of_mem c hr)
    show (if c = '_' then ['_', '_'] else [c]) ++ escList rest = c :: rest
    rw [if_neg hc, escList_of_not_mem hr]
    rfl

theorem count_joinChars :
    ∀ l : List (List Char), (∀ s ∈ l, '_' ∉ s) → l ≠ [] →
      List.count '_' (joinChars l) = l.length - 1
  | [], _, hne => absurd rfl hne
  | [s], h, _ => by
    simp [joinChars, List.count_eq_zero.mpr (h s (by simp))]
  | s :: s' :: rest, h, _ => by
    have hs : '_' ∉ s := h s (by simp)
    have hrest : ∀ t ∈ s' :: rest, '_' ∉ t := fun t ht => h t (List.mem_cons_of_mem s ht)
    show List.count '_' (s ++ '_' :: joinChars (s' :: rest)) = _
    rw [List.count_append, List.count_cons_self,
      count_joinChars (s' :: rest) hrest (by simp), List.count_eq_zero.mpr hs]
    simp

theorem append_sep_inj :
    ∀ (a : List Char) {b x y : List Char}, '_' ∉ a → '_' ∉ b →
      a ++ '_' :: x = b ++ '_' :: y → a = b ∧ x = y
  | [], b, x, y, _, hb, h => by
    cases b with
    | nil => simpa using h
    | cons c b' =>
      exfalso
      have : '_' = c := by simpa using congrArg (fun l => l.head?) h
      exact hb (this ▸ List.mem_cons_self c b')
  | c :: a', b, x, y, ha, hb, h => by
    cases b with
    | nil =>
      exfalso
      have : c = '_' := by simpa using congrArg (fun l => l.head?) h
      exact ha (this ▸ List.mem_cons_self c a')
    | cons c' b' =>
      have hc : c = c' := by simpa using congrArg (fun l => l.head?) h
      have htail : a' ++ '_' :: x = b' ++ '_' :: y := by
        simpa using congrArg (fun l => l.tail) h
      have ha' : '_' ∉ a' := fun hm => ha (List.mem_cons_of_mem c hm)
      have hb' : '_' ∉ b' := fun hm => hb (List.mem_cons_of_mem c' hm)
      obtain ⟨h1, h2⟩ := append_sep_inj a' ha' hb' htail
      exact ⟨by rw [hc, h1], h2⟩

theorem joinChars_inj :
    ∀ (l1 l2 : List (List Char)), (∀ s ∈ l1, '_' ∉ s) → (∀ s ∈ l2, '_' ∉ s) →
      l1 ≠ [] → l2 ≠ [] → joinChars l1 = joinChars l2 → l1 = l2
  | [], _, _, _, hne, _, _ => absurd rfl hne
  | _ :: _, [], _, _, _, hne, _ => absurd rfl hne
  | [a], [b], _, _, _, _, h => by rw [show a = b from h]
  | [a], b :: b' :: rest, h1, h2, _, _, h => by
    exfalso
    have hcount := count_joinChars (b :: b' :: rest) h2 (by simp)
    rw [← h] at hcount
    have hz : List.count '_' (joinChars [a]) = 0 :=
      List.count_eq_zero.mpr (h1 a (by simp))
    rw [hz] at hcount
    simp at hcount
  | a :: a' :: rest, [b], h1, h2, _, _, h => by
    exfalso
    have hcount := count_joinChars (a :: a' :: rest) h1 (by simp)
    rw [h] at hcount
    have hz : List.count '_' (joinChars [b]) = 0 :=
      List.count_eq_zero.mpr (h2 b (by simp))
    rw [hz] at hcount
    simp at hcount
  | a :: a' :: r1, b :: b' :: r2, h1, h2, _, _, h => by
    have ha : '_' ∉ a := h1 a (by simp)
    have hb : '_' ∉ b := h2 b (by simp)
    obtain ⟨hab, htail⟩ := append_sep_inj a ha hb h
    have := joinChars_inj (a' :: r1) (b' :: r2)
      (fun s hs => h1 s (List.mem_cons_of_mem a hs))
      (fun s hs => h2 s (List.mem_cons_of_mem b hs))
      (by simp) (by simp) htail
    rw [hab, this]

theorem joinWithUnderscore_append_singleton :
    ∀ (l : List String) (x : String), l ≠ [] →
      joinWithUnderscore (l ++ [x]) = joinWithUnderscore l ++ "_" ++ x
  | [], _, hne => absurd rfl hne
  | [s], x, _ => rfl
  | s :: s' :: rest, x, _ => by
    show s ++ "_" ++ joinWithUnderscore ((s' :: rest) ++ [x]) = _
    rw [joinWithUnderscore_append_singleton (s' :: rest) x (by simp)]
    show _ = (s ++ "_" ++ joinWithUnderscore (s' :: rest)) ++ "_" ++ x
    simp [String.append_assoc]

theorem mangle_eq_join_all (mp : List PathPart) (c o : String) :
    mangle_template_parameter_name mp c o =
      joinWithUnderscore (((mp.map fun x => x.name.value) ++ [c, o]).map escapeUnderscores) := by
  show joinWithUnderscore (((mp.map fun x => x.name.value) ++ [c]).map escapeUnderscores)
      ++ "_" ++ escapeUnderscores o = _
  have h : ((mp.map fun x => x.name.value) ++ [c, o]).map escapeUnderscores
      = (((mp.map fun x => x.name.value) ++ [c]).map escapeUnderscores)
        ++ [escapeUnderscores o] := by
    simp
  rw [h, joinWithUnderscore_append_singleton _ _ (by simp)]

theorem append_from_scope_total (scope : Scope) (fst : PathPart) (rest : List PathPart)
    (s : Span) (sm : ScopeMember) (hfind : scope.find fst.name.value = some sm) :
    ∃ out, append_from_scope scope ⟨fst :: rest, s⟩ = .ok out := by
  cases sm with
  | UseDeclaration mp ta =>
    cases ta with
    | none => exact ⟨⟨mp ++ rest, s⟩, by simp [append_from_scope, hfind]⟩
    | some targs =>
      by_cases he : targs.isEmpty
      · exact ⟨⟨mp ++ rest, s⟩, by simp [append_from_scope, hfind, he]⟩
      · exact ⟨⟨mp ++ rest, s⟩, by simp [append_from_scope, hfind, he, setFirstTemplateArgs]⟩
  | LocalDeclaration => exact ⟨⟨fst :: rest, s⟩, by simp [append_from_scope, hfind]⟩
  | BuiltIn => exact ⟨⟨fst :: rest, s⟩, by simp [append_from_scope, hfind]⟩
  | ModuleMemberDeclaration mp d =>
      exact ⟨⟨mp ++ fst :: rest, s⟩, by simp [append_from_scope, hfind]⟩
  | GlobalDeclaration d => exact ⟨⟨fst :: rest, s⟩, by simp [append_from_scope, hfind]⟩
  | FormalFunctionParameter => exact ⟨⟨fst :: rest, s⟩, by simp [append_from_scope, hfind]⟩
  | TemplateParam nn =>
      exact ⟨⟨setFirstName (fst :: rest) nn, s⟩, by simp [append_from_scope, hfind]⟩
  | Inline mp => exact ⟨⟨mp ++ rest, s⟩, by simp [append_from_scope, hfind]⟩

/-! ## Claim theorems -/

/-- C5 counterexample: the mangling is not injective on the triple
(module path, containing entity name, original name): the distinct triples
`([], "a_", "b")` and `([], "a", "_b")` both mangle to `"a___b"`. -/
theorem c5_mangle_not_injective_counterexample :
    mangle_template_parameter_name [] "a_" "b" = mangle_template_parameter_name [] "a" "_b" ∧
    ("a_" : String) ≠ "a" := by
  constructor
  · decide
  · decide

/-- C5 amended: `mangle_template_parameter_name` equals the spec's formula
(escape each segment and the containing name, join with underscores, append
the escaped old name), and the mangling is injective on triples whose module
path segment names, containing entity name, and original name contain no
underscore.  Full injectivity fails (see the counterexample): escaping only
the components while joining with the same character is ambiguous. -/
theorem c5_mangle_formula_and_injectivity_amended :
    (∀ (mp : List PathPart) (c o : String),
      mangle_template_parameter_name mp c o = spec_mangle_formula mp c o) ∧
    (∀ (mp1 : List PathPart) (c1 o1 : String) (mp2 : List PathPart) (c2 o2 : String),
      (∀ s ∈ mp1.map fun x => x.name.value, '_' ∉ s.data) → '_' ∉ c1.data → '_' ∉ o1.data →
      (∀ s ∈ mp2.map fun x => x.name.value, '_' ∉ s.data) → '_' ∉ c2.data → '_' ∉ o2.data →
      mangle_template_parameter_name mp1 c1 o1 = mangle_template_parameter_name mp2 c2 o2 →
      (mp1.map fun x => x.name.value) = (mp2.map fun x => x.name.value) ∧ c1 = c2 ∧ o1 = o2) := by
  constructor
  · intro mp c o
    show joinWithUnderscore (((mp.map fun x => x.name.value) ++ [c]).map escapeUnderscores)
        ++ "_" ++ escapeUnderscores o = _
    unfold spec_mangle_formula
    rw [List.map_append, List.map_map]
    rfl
  · intro mp1 c1 o1 mp2 c2 o2 h1 h2 h3 h4 h5 h6 heq
    rw [mangle_eq_join_all, mangle_eq_join_all] at heq
    have hdata := congrArg String.data heq
    rw [joinWithUnderscore_data, joinWithUnderscore_data] at hdata
    have conv1 : ∀ (L : List String), (∀ s ∈ L, '_' ∉ s.data) →
        ((L.map escapeUnderscores).map String.data) = L.map String.data := by
      intro L hL
      rw [List.map_map]
      apply List.map_congr_left
      intro a ha
      show (escapeUnderscores a).data = a.data
      rw [escapeUnderscores_data, escList_of_not_mem (hL a ha)]
    have e1 : ∀ s ∈ (mp1.map fun x => x.name.value) ++ [c1, o1], '_' ∉ s.data := by
      intro s hs
      rcases List.mem_append.mp hs with h | h
      · exact h1 s h
      · simp at h
        rcases h with h | h <;> subst h
        · exact h2
        · exact h3
    have e2 : ∀ s ∈ (mp2.map fun x => x.name.value) ++ [c2, o2], '_' ∉ s.data := by
      intro s hs
      rcases List.mem_append.mp hs with h | h
      · exact h4 s h
      · simp at h
        rcases h with h | h <;> subst h
        · exact h5
        · exact h6
    rw [conv1 _ e1, conv1 _ e2] at hdata
    have huf1 : ∀ s ∈ ((mp1.map fun x => x.name.value) ++ [c1, o1]).map String.data,
        '_' ∉ s := by
      intro s hs
      obtain ⟨t, ht, rfl⟩ := List.mem_map.mp hs
      exact e1 t ht
    have huf2 : ∀ s ∈ ((mp2.map fun x => x.name.value) ++ [c2, o2]).map String.data,
        '_' ∉ s := by
      intro s hs
      obtain ⟨t, ht, rfl⟩ := List.mem_map.mp hs
      exact e2 t ht
    have hlists := joinChars_inj _ _ huf1 huf2 (by simp) (by simp) hdata
    have hinj : (mp1.map fun x => x.name.value) ++ [c1, o1]
        = (mp2.map fun x => x.name.value) ++ [c2, o2] := by
      have hdi : Function.Injective String.data := fun a b h => String.ext h
      exact List.map_injective_iff.mpr hdi hlists
    obtain ⟨hA, hB⟩ := List.append_inj' hinj (by simp)
    have hB' : c1 = c2 ∧ o1 = o2 := by simpa using hB
    exact ⟨hA, hB'.1, hB'.2⟩

/-- C5 witness: the amended theorem applied at the concrete triple
`([], "M", "T")`. -/
theorem c5_mangle_formula_and_injectivity_amended_witness :
    mangle_template_parameter_name [] "M" "T" = spec_mangle_formula [] "M" "T" ∧
    ((([] : List PathPart).map fun x => x.name.value)
      = (([] : List PathPart).map fun x => x.name.value) ∧
      ("M" : String) = "M" ∧ ("T" : String) = "T") := by
  refine ⟨c5_mangle_formula_and_injectivity_amended.1 [] "M" "T", ?_⟩
  exact c5_mangle_formula_and_injectivity_amended.2 [] "M" "T" [] "M" "T"
    (by simp) (by decide) (by decide) (by simp) (by decide) (by decide) rfl

/-- C10: the path rewriter, invoked on an empty path, returns `Ok` without
looking anything up and leaves the path unchanged — no error, no abort. -/
theorem c10_append_from_scope_empty_path (scope : Scope) (s : Span) :
    append_from_scope scope ⟨[], s⟩ = .ok ⟨[], s⟩ := rfl

/-- C2: when the first segment is bound to `UseDeclaration` with stored
(nonempty) template arguments, the rewriter's result is just the stored path
followed by the tail of the original path: the stored template arguments are
written onto the original first segment, which is then dropped, so they appear
on no retained segment of the output (contradicting the claim that they are
set on the first retained segment). -/
theorem c2_use_template_args_dropped (scope : Scope) (g : PathPart)
    (rest module_path : List PathPart) (targs : List (Spanned TemplateArg)) (s : Span)
    (h : scope.find g.name.value = some (.UseDeclaration module_path (some targs))) :
    append_from_scope scope ⟨g :: rest, s⟩ = .ok ⟨module_path ++ rest, s⟩ := by
  cases targs with
  | nil => simp [append_from_scope, h]
  | cons t ts => simp [append_from_scope, h, setFirstTemplateArgs]

/-- C2 witness: the rewriter at the concrete binding
`g ↦ UseDeclaration([A, f], some [arg])` on the one-segment path `g`: the
output is `[A, f]`, and the stored argument appears nowhere in it. -/
theorem c2_use_template_args_dropped_witness :
    append_from_scope c2_scope ⟨[ppart "g"], sp⟩ = .ok ⟨[ppart "A", ppart "f"], sp⟩ := by
  have h := c2_use_template_args_dropped c2_scope (ppart "g") []
    [ppart "A", ppart "f"] [c2_targ] sp rfl
  simpa using h

/-- C6: on `use A::{B::c}` (scope binding `A` to a root module containing
`B::c`), the processor extends the child's base with the parent's base
appended after the child's own segments, so it looks up `B` instead of
resolving `A::B::c` and fails with `SymbolNotFound(["B"])` — instead of
binding `c` to `UseDeclaration([A, B, c])` as the claim states. -/
theorem c6_collection_child_path_order :
    add_usage_to_scope 10 c6_use [] c6_scope = .error (.SymbolNotFound [ppart "B"] sp) := rfl

/-- C9 counterexample: on a unit with an empty module `A` and the directive
`extend A::B`, the pass returns `SymbolNotFound(["A", "B"])` even though the
path's leading segment `A` names a root declaration (and is bound in scope):
the error does not carry `a name whose leading segment is not bound`. -/
theorem c9_error_counterexample :
    resolve_mut [] 10 c9_tu = .error (.SymbolNotFound [ppart "A", ppart "B"] sp) ∧
    rootDeclNames c9_tu = ["A"] := ⟨rfl, rfl⟩

/-- C9 amended: every error produced by the path rewriter is
`SymbolNotFound` carrying exactly the offending path and its span, and it
arises precisely when the path is nonempty and its leading segment's name is
unbound in scope.  (Module-hop lookups during extend processing may
additionally report `SymbolNotFound` for a path whose leading segment is
bound, as the counterexample shows.) -/
theorem c9_symbol_not_found_amended :
    (∀ (scope : Scope) (path : Spanned (List PathPart)) (e : ResolverError),
      append_from_scope scope path = .error e →
      e = .SymbolNotFound path.value path.span ∧
      ∃ fst rest, path.value = fst :: rest ∧ scope.find fst.name.value = none) ∧
    (∀ (scope : Scope) (fst : PathPart) (rest : List PathPart) (s : Span),
      scope.find fst.name.value = none →
      append_from_scope scope ⟨fst :: rest, s⟩ = .error (.SymbolNotFound (fst :: rest) s)) := by
  constructor
  · intro scope path e h
    obtain ⟨v, s⟩ := path
    cases v with
    | nil => exact absurd h (by simp [append_from_scope])
    | cons fst rest =>
      cases hfind : scope.find fst.name.value with
      | some sm =>
        obtain ⟨out, hout⟩ := append_from_scope_total scope fst rest s sm hfind
        rw [hout] at h
        cases h
      | none =>
        have hL : append_from_scope scope ⟨fst :: rest, s⟩
            = .error (.SymbolNotFound (fst :: rest) s) := by
          simp [append_from_scope, hfind]
        rw [hL] at h
        injection h with h'
        exact ⟨h'.symm, fst, rest, rfl, hfind⟩
  · intro scope fst rest s h
    simp [append_from_scope, h]

/-- C9 witness: the amended characterization applied at the empty scope and
the one-segment path `z`. -/
theorem c9_symbol_not_found_amended_witness :
    append_from_scope Scope.empty ⟨[ppart "z"], sp⟩
      = .error (.SymbolNotFound [ppart "z"] sp) :=
  c9_symbol_not_found_amended.2 Scope.empty (ppart "z") [] sp rfl

/-! ## Lemmas about the loop-local collector (C8) -/

mutual

theorem collect_decl_local_mono (d : DeclarationStatement)
    (σ : List (String × ScopeMember)) (x : String)
    (h : Scope.find σ x = some .LocalDeclaration) :
    Scope.find (add_all_local_declarations_recursively_to_scope_for_loop d σ) x
      = some .LocalDeclaration :=
  match d with
  | .mk decl stmts =>
    collect_go_local_mono stmts (Scope.insert σ decl.name.value .LocalDeclaration) x
      (by rw [scope_find_insert]; split <;> simp [h])

theorem collect_go_local_mono (l : List Statement)
    (σ : List (String × ScopeMember)) (x : String)
    (h : Scope.find σ x = some .LocalDeclaration) :
    Scope.find (add_all_local_declarations_recursively_to_scope_for_loop.go l σ) x
      = some .LocalDeclaration :=
  match l with
  | [] => h
  | s :: rest => by
    cases s <;>
      first
        | exact collect_go_local_mono rest σ x h
        | (rename_i d
           exact collect_go_local_mono rest
             (add_all_local_declarations_recursively_to_scope_for_loop d σ) x
             (collect_decl_local_mono d σ x h))

end

mutual

theorem collect_decl_declares (d : DeclarationStatement)
    (σ : List (String × ScopeMember)) (x : String)
    (h : declStatementDeclaresLocal d x = true) :
    Scope.find (add_all_local_declarations_recursively_to_scope_for_loop d σ) x
      = some .LocalDeclaration :=
  match d with
  | .mk decl stmts => by
    have h' : decl.name.value = x ∨ declStatementDeclaresLocal.go stmts x = true := by
      simpa [declStatementDeclaresLocal] using h
    rcases h' with hname | hgo
    · exact collect_go_local_mono stmts (Scope.insert σ decl.name.value .LocalDeclaration) x
        (by rw [scope_find_insert, if_pos hname])
    · exact collect_go_declares stmts _ x hgo

theorem collect_go_declares (l : List Statement)
    (σ : List (String × ScopeMember)) (x : String)
    (h : declStatementDeclaresLocal.go l x = true) :
    Scope.find (add_all_local_declarations_recursively_to_scope_for_loop.go l σ) x
      = some .LocalDeclaration :=
  match l with
  | [] => by simp [declStatementDeclaresLocal.go] at h
  | s :: rest => by
    cases s <;>
      first
        | exact collect_go_declares rest σ x h
        | (rename_i d
           have h' : declStatementDeclaresLocal d x = true ∨
               declStatementDeclaresLocal.go rest x = true := by
             simpa [declStatementDeclaresLocal.go] using h
           rcases h' with hd | hrest
           · exact collect_go_local_mono rest _ x (collect_decl_declares d σ x hd)
           · exact collect_go_declares rest _ x hrest)

end

theorem collectTop_local_mono :
    ∀ (l : List Statement) (σ : List (String × ScopeMember)) (x : String),
      Scope.find σ x = some .LocalDeclaration →
      Scope.find (collectTopLevelLoopLocals l σ) x = some .LocalDeclaration
  | [], _, _, h => h
  | s :: rest, σ, x, h => by
    cases s <;>
      first
        | exact collectTop_local_mono rest σ x h
        | (rename_i d
           exact collectTop_local_mono rest _ x (collect_decl_local_mono d σ x h))

theorem collectTop_declares :
    ∀ (l : List Statement) (σ : List (String × ScopeMember)) (x : String),
      stmtsDeclareLocal l x = true →
      Scope.find (collectTopLevelLoopLocals l σ) x = some .LocalDeclaration
  | [], _, _, h => by simp [stmtsDeclareLocal] at h
  | s :: rest, σ, x, h => by
    cases s <;>
      first
        | exact collectTop_declares rest σ x h
        | (rename_i d
           have h' : declStatementDeclaresLocal d x = true ∨
               stmtsDeclareLocal rest x = true := by
             simpa [stmtsDeclareLocal] using h
           rcases h' with hd | hrest
           · exact collectTop_local_mono rest _ x (collect_decl_declares d σ x hd)
           · exact collectTop_declares rest _ x hrest)

theorem single_local_identifier_resolves (g : Nat) (σ : Scope) (nm : Spanned String)
    (psp : Span) (mp : List PathPart)
    (h : σ.find nm.value = some .LocalDeclaration) :
    (pass (g + 3)).expression_to_absolute_paths
        (.Identifier ⟨[.mk nm none none], psp⟩) mp σ
      = .ok (.Identifier ⟨[.mk nm none none], psp⟩) := by
  have happend : append_from_scope σ ⟨[PathPart.mk nm none none], psp⟩
      = .ok ⟨[PathPart.mk nm none none], psp⟩ := by
    simp [append_from_scope, PathPart.name, h]
  show (passSucc (passSucc (passSucc (pass g)))).expression_to_absolute_paths
      (.Identifier ⟨[.mk nm none none], psp⟩) mp σ = _
  simp [passSucc, inlinePartsLoop, PathPart.template_args,
    PathPart.inline_template_args, PathPart.withTemplateArgs, happend]
  rfl

/-- C8: for a loop whose (walked) body declares `n` — directly or transitively
through trailing statements of declaration statements — and whose continuing
block carries no directives of its own and a `break_if` that is a bare
reference to `n`, the loop statement resolves `Ok`: the `break_if` reference
resolves to the local declaration and its path is left unchanged, with no
`SymbolNotFound` error. -/
theorem c8_loop_continuing_break_if_resolves
    (fuel : Nat) (l : LoopStatement) (module_path : List PathPart) (scope scope1 : Scope)
    (bodyDirs : List (Spanned CompoundDirective)) (body1 body2 : CompoundStatement)
    (cont : ContinuingStatement) (nm : Spanned String) (bsp : Span)
    (h1 : addCompoundUsages (pass (fuel + 3)) module_path l.body.directives scope
      = .ok (bodyDirs, scope1))
    (h2 : (pass (fuel + 3)).compound_statement_to_absolute_paths
      (.mk bodyDirs l.body.statements) module_path scope1 = .ok body1)
    (h3 : l.continuing = some cont)
    (h4 : cont.body.directives = [])
    (h5 : (pass (fuel + 3)).compound_statement_to_absolute_paths body1 module_path
      (collectTopLevelLoopLocals body1.statements scope1) = .ok body2)
    (h6 : cont.break_if = some (.Identifier ⟨[.mk nm none none], bsp⟩))
    (h7 : stmtsDeclareLocal body1.statements nm.value = true) :
    statement_to_absolute_paths (fuel + 4) (.Loop l) module_path scope =
      .ok (.Loop (.mk body2 (some (.mk (.mk [] cont.body.statements)
        (some (.Identifier ⟨[.mk nm none none], bsp⟩)))))) := by
  have hlocal2 : Scope.find (collectTopLevelLoopLocals body1.statements scope1) nm.value
      = some .LocalDeclaration := collectTop_declares body1.statements scope1 nm.value h7
  have hlocal3 : Scope.find (collectTopLevelLoopLocals cont.body.statements
      (collectTopLevelLoopLocals body1.statements scope1)) nm.value
      = some .LocalDeclaration :=
    collectTop_local_mono cont.body.statements _ nm.value hlocal2
  have hbreak := single_local_identifier_resolves fuel
    (collectTopLevelLoopLocals cont.body.statements
      (collectTopLevelLoopLocals body1.statements scope1)) nm bsp module_path hlocal3
  show (passSucc (pass (fuel + 3))).statement_to_absolute_paths (.Loop l) module_path scope = _
  simp only [passSucc, h1, ok_bind, pure_bind_resolve, h2, h3, h4, addCompoundUsages,
    h5, h6, hbreak]
  rfl

/-- C8 witness: scenario S5 — `loop { let n = 1; } continuing { break_if n }`
under the empty scope resolves `Ok` with the `break_if` path unchanged. -/
theorem c8_loop_continuing_break_if_resolves_witness :
    statement_to_absolute_paths 4 (.Loop c8_loop) [] Scope.empty =
      .ok (.Loop (.mk (.mk [] [.Declaration (.mk (.mk ⟨"n", sp⟩ [] none (some (.Literal 1))) [])])
        (some (.mk (.mk [] []) (some (.Identifier ⟨[.mk ⟨"n", sp⟩ none none], sp⟩)))))) :=
  c8_loop_continuing_break_if_resolves 0 c8_loop [] Scope.empty Scope.empty []
    (.mk [] [.Declaration (.mk (.mk ⟨"n", sp⟩ [] none (some (.Literal 1))) [])])
    (.mk [] [.Declaration (.mk (.mk ⟨"n", sp⟩ [] none (some (.Literal 1))) [])])
    (.mk (.mk [] []) (some (.Identifier ⟨[.mk ⟨"n", sp⟩ none none], sp⟩)))
    ⟨"n", sp⟩ sp rfl rfl rfl rfl rfl rfl rfl

/-! ## Lemmas for the plain-fragment identity (C3) -/

theorem ok_inj {α : Type} {a b : α} (h : (Except.ok a : ResolveM α) = .ok b) : a = b := by
  injection h

theorem pass_succ_eq (n : Nat) : pass (n + 1) = passSucc (pass n) := rfl

theorem bind_ok_inv {α β : Type} {m : ResolveM α} {k : α → ResolveM β} {out : β}
    (h : (m >>= k) = .ok out) : ∃ v, m = .ok v ∧ k v = .ok out := by
  cases m with
  | error e => exact Except.noConfusion (error_bind e k ▸ h)
  | ok v => exact ⟨v, rfl, h⟩

theorem isEmpty_eq_nil {α : Type} {l : List α} (h : l.isEmpty = true) : l = [] := by
  cases l with
  | nil => rfl
  | cons a t => simp [List.isEmpty] at h

theorem passive_insert {s : Scope} {v : ScopeMember} (k : String)
    (hs : PassiveScope s) (hv : passiveMember v) : PassiveScope (s.insert k v) := by
  intro n sm h
  rw [scope_find_insert] at h
  split at h
  · injection h with h'
    rw [← h']
    exact hv
  · exact hs n sm h

theorem append_passive_id (scope : Scope) (p p' : Spanned (List PathPart))
    (hpass : PassiveScope scope) (h : append_from_scope scope p = .ok p') : p' = p := by
  obtain ⟨v, s⟩ := p
  cases v with
  | nil =>
    have hL : append_from_scope scope ⟨[], s⟩ = .ok ⟨[], s⟩ := rfl
    rw [hL] at h
    exact (ok_inj h).symm
  | cons fst rest =>
    cases hfind : scope.find fst.name.value with
    | none =>
      have hL : append_from_scope scope ⟨fst :: rest, s⟩
          = .error (.SymbolNotFound (fst :: rest) s) := by
        simp [append_from_scope, hfind]
      rw [hL] at h
      exact Except.noConfusion h
    | some sm =>
      have hp := hpass _ _ hfind
      cases sm with
      | LocalDeclaration =>
        have hL : append_from_scope scope ⟨fst :: rest, s⟩ = .ok ⟨fst :: rest, s⟩ := by
          simp [append_from_scope, hfind]
        rw [hL] at h
        exact (ok_inj h).symm
      | BuiltIn =>
        have hL : append_from_scope scope ⟨fst :: rest, s⟩ = .ok ⟨fst :: rest, s⟩ := by
          simp [append_from_scope, hfind]
        rw [hL] at h
        exact (ok_inj h).symm
      | FormalFunctionParameter =>
        have hL : append_from_scope scope ⟨fst :: rest, s⟩ = .ok ⟨fst :: rest, s⟩ := by
          simp [append_from_scope, hfind]
        rw [hL] at h
        exact (ok_inj h).symm
      | GlobalDeclaration d =>
        have hL : append_from_scope scope ⟨fst :: rest, s⟩ = .ok ⟨fst :: rest, s⟩ := by
          simp [append_from_scope, hfind]
        rw [hL] at h
        exact (ok_inj h).symm
      | ModuleMemberDeclaration mp d => exact hp.elim
      | UseDeclaration mp ta => exact hp.elim
      | TemplateParam nn => exact hp.elim
      | Inline mp => exact hp.elim

theorem withTemplateArgs_none_id {p : PathPart} (h : p.template_args = none) :
    p.withTemplateArgs none = p := by
  obtain ⟨n, t, i⟩ := p
  have : t = none := h
  rw [this]
  rfl

theorem inlinePartsLoop_plain_id (q : PassFns) (mp : List PathPart) (inner : Scope) :
    ∀ (parts : List PathPart) (current full : Spanned (List PathPart)) (scope : Scope),
      plainPath parts = true →
      ∃ cur' full', inlinePartsLoop q mp inner parts current full scope
        = .ok (parts, cur', full', scope)
  | [], current, full, _, _ => ⟨current, full, rfl⟩
  | part :: rest, current, full, scope, h => by
    obtain ⟨nm, targs, inl⟩ := part
    have h' : (targs.isNone && inl.isNone) = true ∧ plainPath rest = true := by
      simpa [plainPath, plainPathPart] using h
    obtain ⟨hpp, hrest⟩ := h'
    have hto : targs = none ∧ inl = none := by
      simpa [Option.isNone_iff_eq_none] using hpp
    obtain ⟨ht, hi⟩ := hto
    subst ht hi
    obtain ⟨c', f', hrec⟩ := inlinePartsLoop_plain_id q mp inner rest
      ⟨current.value ++ [.mk nm none none], current.span⟩
      ⟨full.value ++ [.mk nm none none], full.span⟩ scope hrest
    exact ⟨c', f', by
      simp [inlinePartsLoop, PathPart.template_args, PathPart.inline_template_args,
        PathPart.withTemplateArgs, hrec]⟩

theorem inline_plain_id (f : Nat) (mp : List PathPart) (path : Spanned (List PathPart))
    (scope : Scope) (out : Spanned (List PathPart) × Scope)
    (hplain : plainPath path.value = true)
    (h : (pass f).inline_template_args_to_absolute_path mp path scope = .ok out) :
    out = (path, scope) := by
  cases f with
  | zero => exact Except.noConfusion h
  | succ f =>
    simp only [pass_succ_eq, passSucc] at h
    obtain ⟨fp1, happ, h⟩ := bind_ok_inv h
    obtain ⟨c', f', heval⟩ := inlinePartsLoop_plain_id (pass f) mp scope path.value
      ⟨[], path.span⟩
      (if fp1.value.isEmpty then fp1 else ⟨fp1.value.dropLast, fp1.span⟩) scope hplain
    rw [heval] at h
    rw [ok_bind] at h
    exact (ok_inj h).symm

theorem relative_plain_id (f : Nat) (scope : Scope) (mp : List PathPart)
    (path out : Spanned (List PathPart)) (hpass : PassiveScope scope)
    (hplain : plainPath path.value = true)
    (h : (pass f).relative_path_to_absolute_path scope mp path = .ok out) : out = path := by
  cases f with
  | zero => exact Except.noConfusion h
  | succ f =>
    simp only [pass_succ_eq, passSucc] at h
    obtain ⟨v, hin, h2⟩ := bind_ok_inv h
    obtain ⟨p1, s1⟩ := v
    have hv := inline_plain_id f mp path scope (p1, s1) hplain hin
    have hp1 : p1 = path := congrArg Prod.fst hv
    have hs1 : s1 = scope := congrArg Prod.snd hv
    rw [hp1, hs1] at h2
    exact append_passive_id scope path out hpass h2

mutual

theorem collect_decl_passive (d : DeclarationStatement)
    (σ : List (String × ScopeMember)) (hp : PassiveScope σ) :
    PassiveScope (add_all_local_declarations_recursively_to_scope_for_loop d σ) :=
  match d with
  | .mk decl stmts =>
    collect_go_passive stmts (Scope.insert σ decl.name.value .LocalDeclaration)
      (passive_insert decl.name.value hp trivial)

theorem collect_go_passive (l : List Statement)
    (σ : List (String × ScopeMember)) (hp : PassiveScope σ) :
    PassiveScope (add_all_local_declarations_recursively_to_scope_for_loop.go l σ) :=
  match l with
  | [] => hp
  | s :: rest => by
    cases s <;>
      first
        | exact collect_go_passive rest σ hp
        | (rename_i d
           exact collect_go_passive rest
             (add_all_local_declarations_recursively_to_scope_for_loop d σ)
             (collect_decl_passive d σ hp))

end

theorem collectTop_passive :
    ∀ (l : List Statement) (σ : List (String × ScopeMember)),
      PassiveScope σ → PassiveScope (collectTopLevelLoopLocals l σ)
  | [], _, hp => hp
  | s :: rest, σ, hp => by
    cases s <;>
      first
        | exact collectTop_passive rest σ hp
        | (rename_i d
           exact collectTop_passive rest _ (collect_decl_passive d σ hp))

theorem forInitScope_passive (st : Statement) (scope : Scope) (hp : PassiveScope scope) :
    PassiveScope (forInitScope st scope) := by
  cases st <;>
    first
      | exact hp
      | (rename_i d; exact passive_insert d.declaration.name.value hp trivial)

theorem map_ok_inv {α β : Type} {g : α → β} {m : ResolveM α} {out : β}
    (h : (g <$> m) = .ok out) : ∃ v, m = .ok v ∧ out = g v := by
  cases m with
  | error e => exact Except.noConfusion h
  | ok v => exact ⟨v, rfl, (ok_inj h).symm⟩

theorem walkExpressions_id (p : PassFns)
    (hp : ∀ e mp scope out, plainExpression e = true → PassiveScope scope →
      p.expression_to_absolute_paths e mp scope = .ok out → out = e) :
    ∀ (l : List Expression) (mp : List PathPart) (scope : Scope) (out : List Expression),
      plainExpressions l = true → PassiveScope scope →
      walkExpressions p mp scope l = .ok out → out = l
  | [], _, _, _, _, _, h => (ok_inj h).symm
  | e :: rest, mp, scope, out, hplain, hpass, h => by
    have hpl : plainExpression e = true ∧ plainExpressions rest = true := by
      simpa [plainExpressions] using hplain
    simp only [walkExpressions] at h
    obtain ⟨v, h1, h2⟩ := bind_ok_inv h
    obtain ⟨vs, h3, h4⟩ := bind_ok_inv h2
    rw [hp e mp scope v hpl.1 hpass h1,
      walkExpressions_id p hp rest mp scope vs hpl.2 hpass h3] at h4
    exact (ok_inj h4).symm

theorem walkStatements_id (p : PassFns)
    (hp : ∀ st mp scope out, plainStatement st = true → PassiveScope scope →
      p.statement_to_absolute_paths st mp scope = .ok out → out = st) :
    ∀ (l : List Statement) (mp : List PathPart) (scope : Scope) (out : List Statement),
      plainStatements l = true → PassiveScope scope →
      walkStatements p mp scope l = .ok out → out = l
  | [], _, _, _, _, _, h => (ok_inj h).symm
  | st :: rest, mp, scope, out, hplain, hpass, h => by
    have hpl : plainStatement st = true ∧ plainStatements rest = true := by
      simpa [plainStatements] using hplain
    simp only [walkStatements] at h
    obtain ⟨v, h1, h2⟩ := bind_ok_inv h
    obtain ⟨vs, h3, h4⟩ := bind_ok_inv h2
    rw [hp st mp scope v hpl.1 hpass h1,
      walkStatements_id p hp rest mp scope vs hpl.2 hpass h3] at h4
    exact (ok_inj h4).symm

theorem walkElseIfs_id (p : PassFns)
    (hpe : ∀ e mp scope out, plainExpression e = true → PassiveScope scope →
      p.expression_to_absolute_paths e mp scope = .ok out → out = e)
    (hpc : ∀ c mp scope out, plainCompound c = true → PassiveScope scope →
      p.compound_statement_to_absolute_paths c mp scope = .ok out → out = c) :
    ∀ (l : List (Expression × CompoundStatement)) (mp : List PathPart) (scope : Scope)
      (out : List (Expression × CompoundStatement)),
      plainElseIfs l = true → PassiveScope scope →
      walkElseIfClauses p mp scope l = .ok out → out = l
  | [], _, _, _, _, _, h => (ok_inj h).symm
  | (e, b) :: rest, mp, scope, out, hplain, hpass, h => by
    have hpl : (plainExpression e = true ∧ plainCompound b = true) ∧ plainElseIfs rest = true := by
      simpa [plainElseIfs, and_assoc] using hplain
    simp only [walkElseIfClauses] at h
    obtain ⟨v1, h1, h2⟩ := bind_ok_inv h
    obtain ⟨v2, h3, h4⟩ := bind_ok_inv h2
    obtain ⟨vs, h5, h6⟩ := bind_ok_inv h4
    rw [hpe e mp scope v1 hpl.1.1 hpass h1, hpc b mp scope v2 hpl.1.2 hpass h3,
      walkElseIfs_id p hpe hpc rest mp scope vs hpl.2 hpass h5] at h6
    exact (ok_inj h6).symm

theorem walkCaseSelectors_id (p : PassFns)
    (hpe : ∀ e mp scope out, plainExpression e = true → PassiveScope scope →
      p.expression_to_absolute_paths e mp scope = .ok out → out = e) :
    ∀ (l : List (Spanned CaseSelector)) (mp : List PathPart) (scope : Scope)
      (out : List (Spanned CaseSelector)),
      plainCaseSelectors l = true → PassiveScope scope →
      walkCaseSelectors p mp scope l = .ok out → out = l
  | [], _, _, _, _, _, h => (ok_inj h).symm
  | c :: rest, mp, scope, out, hplain, hpass, h => by
    obtain ⟨cv, cs⟩ := c
    cases cv with
    | Default =>
      have hpl : plainCaseSelectors rest = true := by
        simpa [plainCaseSelectors] using hplain
      simp only [walkCaseSelectors] at h
      obtain ⟨vs, h1, h2⟩ := bind_ok_inv h
      rw [walkCaseSelectors_id p hpe rest mp scope vs hpl hpass h1] at h2
      exact (ok_inj h2).symm
    | Expression e =>
      have hpl : plainExpression e = true ∧ plainCaseSelectors rest = true := by
        simpa [plainCaseSelectors] using hplain
      simp only [walkCaseSelectors] at h
      obtain ⟨v, h1, h2⟩ := bind_ok_inv h
      obtain ⟨vs, h3, h4⟩ := bind_ok_inv h2
      rw [hpe e mp scope v hpl.1 hpass h1,
        walkCaseSelectors_id p hpe rest mp scope vs hpl.2 hpass h3] at h4
      exact (ok_inj h4).symm

theorem walkSwitchClauses_id (p : PassFns)
    (hpe : ∀ e mp scope out, plainExpression e = true → PassiveScope scope →
      p.expression_to_absolute_paths e mp scope = .ok out → out = e)
    (hpc : ∀ c mp scope out, plainCompound c = true → PassiveScope scope →
      p.compound_statement_to_absolute_paths c mp scope = .ok out → out = c) :
    ∀ (l : List SwitchClause) (mp : List PathPart) (scope : Scope) (out : List SwitchClause),
      plainSwitchClauses l = true → PassiveScope scope →
      walkSwitchClauses p mp scope l = .ok out → out = l
  | [], _, _, _, _, _, h => (ok_inj h).symm
  | .mk sels body :: rest, mp, scope, out, hplain, hpass, h => by
    have hpl : (plainCaseSelectors sels = true ∧ plainCompound body = true)
        ∧ plainSwitchClauses rest = true := by
      simpa [plainSwitchClauses, and_assoc] using hplain
    simp only [walkSwitchClauses, SwitchClause.case_selectors, SwitchClause.body] at h
    obtain ⟨v1, h1, h2⟩ := bind_ok_inv h
    obtain ⟨v2, h3, h4⟩ := bind_ok_inv h2
    obtain ⟨vs, h5, h6⟩ := bind_ok_inv h4
    rw [walkCaseSelectors_id p hpe sels mp scope v1 hpl.1.1 hpass h1,
      hpc body mp scope v2 hpl.1.2 hpass h3,
      walkSwitchClauses_id p hpe hpc rest mp scope vs hpl.2 hpass h5] at h6
    exact (ok_inj h6).symm

theorem walkStructMembers_id (p : PassFns)
    (hpt : ∀ t mp scope out, plainTypeExpression t = true → PassiveScope scope →
      p.type_to_absolute_path t mp scope = .ok out → out = t) :
    ∀ (l : List StructMember) (mp : List PathPart) (scope : Scope) (out : List StructMember),
      (l.all fun m => plainTypeExpression m.typ) = true → PassiveScope scope →
      walkStructMembers p mp scope l = .ok out → out = l
  | [], _, _, _, _, _, h => (ok_inj h).symm
  | .mk mn mt :: rest, mp, scope, out, hplain, hpass, h => by
    have hpl : plainTypeExpression mt = true
        ∧ (rest.all fun m => plainTypeExpression m.typ) = true := by
      simpa [StructMember.typ] using hplain
    simp only [walkStructMembers, StructMember.name, StructMember.typ] at h
    obtain ⟨v, h1, h2⟩ := bind_ok_inv h
    obtain ⟨vs, h3, h4⟩ := bind_ok_inv h2
    rw [hpt mt mp scope v hpl.1 hpass h1,
      walkStructMembers_id p hpt rest mp scope vs hpl.2 hpass h3] at h4
    exact (ok_inj h4).symm

theorem walkFunctionParams_id (p : PassFns)
    (hpt : ∀ t mp scope out, plainTypeExpression t = true → PassiveScope scope →
      p.type_to_absolute_path t mp scope = .ok out → out = t) :
    ∀ (l : List FunctionParameter) (mp : List PathPart) (scope : Scope)
      (out : List FunctionParameter × Scope),
      (l.all fun fp => plainTypeExpression fp.typ) = true → PassiveScope scope →
      walkFunctionParams p mp l scope = .ok out → out.1 = l ∧ PassiveScope out.2
  | [], _, scope, out, _, hpass, h => by
    rw [(ok_inj h).symm]
    exact ⟨rfl, hpass⟩
  | .mk fn ft :: rest, mp, scope, out, hplain, hpass, h => by
    have hpl : plainTypeExpression ft = true
        ∧ (rest.all fun fp => plainTypeExpression fp.typ) = true := by
      simpa [FunctionParameter.typ] using hplain
    simp only [walkFunctionParams, FunctionParameter.name, FunctionParameter.typ] at h
    obtain ⟨v, h1, h2⟩ := bind_ok_inv h
    obtain ⟨vs, h3, h4⟩ := bind_ok_inv h2
    obtain ⟨pr, sc⟩ := vs
    have hrec := walkFunctionParams_id p hpt rest mp
      (Scope.insert scope fn.value .FormalFunctionParameter) (pr, sc) hpl.2
      (passive_insert fn.value hpass trivial) h3
    rw [hpt ft mp scope v hpl.1 hpass h1] at h4
    rw [(ok_inj h4).symm]
    exact ⟨by rw [hrec.1], hrec.2⟩

theorem decl_TP_plain_id (f : Nat) (mp : List PathPart) (d : Declaration) (scope : Scope)
    (out : Declaration × Scope) (hpar : d.template_parameters = [])
    (h : (pass f).decl_template_parameters_to_absolute_path mp d scope = .ok out) :
    out = (d, scope) := by
  cases f with
  | zero => exact Except.noConfusion h
  | succ f =>
    obtain ⟨nm, tps, typ, init⟩ := d
    have htps : tps = [] := hpar
    subst htps
    simp only [pass_succ_eq, passSucc, entityTemplateParamsLoop, pure_bind_resolve,
      Declaration.name, Declaration.template_parameters, Declaration.typ,
      Declaration.initializer] at h
    exact (ok_inj h).symm

theorem func_TP_plain_id (f : Nat) (mp : List PathPart) (fn : Mew.Function) (scope : Scope)
    (out : Mew.Function × Scope) (hpar : fn.template_parameters = [])
    (h : (pass f).function_template_parameters_to_absolute_path mp fn scope = .ok out) :
    out = (fn, scope) := by
  cases f with
  | zero => exact Except.noConfusion h
  | succ f =>
    obtain ⟨nm, tps, params, rt, body⟩ := fn
    have htps : tps = [] := hpar
    subst htps
    simp only [pass_succ_eq, passSucc, entityTemplateParamsLoop, pure_bind_resolve,
      Function.name, Function.template_parameters, Function.parameters,
      Function.return_type, Function.body] at h
    exact (ok_inj h).symm

theorem alias_TP_plain_id (f : Nat) (mp : List PathPart) (a : Alias) (scope : Scope)
    (out : Alias × Scope) (hpar : a.template_parameters = [])
    (h : (pass f).alias_template_parameters_to_absolute_path mp a scope = .ok out) :
    out = (a, scope) := by
  cases f with
  | zero => exact Except.noConfusion h
  | succ f =>
    obtain ⟨nm, tps, typ⟩ := a
    have htps : tps = [] := hpar
    subst htps
    simp only [pass_succ_eq, passSucc, entityTemplateParamsLoop, pure_bind_resolve,
      Alias.name, Alias.template_parameters, Alias.typ] at h
    exact (ok_inj h).symm

theorem const_TP_plain_id (f : Nat) (mp : List PathPart) (ca : ConstAssert) (scope : Scope)
    (out : ConstAssert × Scope) (hpar : ca.template_parameters = [])
    (h : (pass f).const_assert_template_parameters_to_absolute_path mp ca scope = .ok out) :
    out = (ca, scope) := by
  cases f with
  | zero => exact Except.noConfusion h
  | succ f =>
    obtain ⟨tps, e⟩ := ca
    have htps : tps = [] := hpar
    subst htps
    simp only [pass_succ_eq, passSucc, constAssertTemplateParamsLoop, pure_bind_resolve,
      ConstAssert.template_parameters, ConstAssert.expression] at h
    exact (ok_inj h).symm

theorem struct_TP_plain_id (f : Nat) (mp : List PathPart) (s : Struct) (scope : Scope)
    (out : Struct × Scope) (hpar : s.template_parameters = [])
    (h : (pass f).struct_template_parameters_to_absolute_path mp s scope = .ok out) :
    out = (s, scope) := by
  cases f with
  | zero => exact Except.noConfusion h
  | succ f =>
    obtain ⟨nm, tps, members⟩ := s
    have htps : tps = [] := hpar
    subst htps
    simp only [pass_succ_eq, passSucc, entityTemplateParamsLoop, pure_bind_resolve,
      Struct.name, Struct.template_parameters, Struct.members] at h
    exact (ok_inj h).symm

theorem option_map_walk_id {α : Type} (walk : α → ResolveM α) (o out : Option α)
    (hid : ∀ x, o = some x → ∀ r, walk x = .ok r → r = x)
    (h : (match o with
          | some x => some <$> walk x
          | none => pure none) = .ok out) : out = o := by
  cases o with
  | none => exact (ok_inj h).symm
  | some x =>
    obtain ⟨v, hv, hout⟩ := map_ok_inv h
    rw [hout, hid x rfl v hv]

theorem plain_identity : ∀ fuel : Nat,
    (∀ e mp scope out, plainExpression e = true → PassiveScope scope →
      (pass fuel).expression_to_absolute_paths e mp scope = .ok out → out = e) ∧
    (∀ st mp scope out, plainStatement st = true → PassiveScope scope →
      (pass fuel).statement_to_absolute_paths st mp scope = .ok out → out = st) ∧
    (∀ cs mp scope out, plainCompound cs = true → PassiveScope scope →
      (pass fuel).compound_statement_to_absolute_paths cs mp scope = .ok out → out = cs) ∧
    (∀ t mp scope out, plainTypeExpression t = true → PassiveScope scope →
      (pass fuel).type_to_absolute_path t mp scope = .ok out → out = t) ∧
    (∀ s mp scope out, plainStruct s = true → PassiveScope scope →
      (pass fuel).struct_to_absolute_path s mp scope = .ok out → out = s) ∧
    (∀ d mp scope out, plainDeclaration d = true → PassiveScope scope →
      (pass fuel).decl_to_absolute_path d mp scope = .ok out → out = d) ∧
    (∀ fn mp scope out, plainFunction fn = true → PassiveScope scope →
      (pass fuel).func_to_absolute_path fn mp scope = .ok out → out = fn) ∧
    (∀ ca mp scope out, plainConstAssert ca = true → PassiveScope scope →
      (pass fuel).const_assert_to_absolute_path ca mp scope = .ok out → out = ca) ∧
    (∀ a mp scope out, plainAlias a = true → PassiveScope scope →
      (pass fuel).alias_to_absolute_path a mp scope = .ok out → out = a) := by
  intro fuel
  induction fuel with
  | zero =>
    refine ⟨?_, ?_, ?_, ?_, ?_, ?_, ?_, ?_, ?_⟩ <;>
      exact fun _ _ _ _ _ _ h => Except.noConfusion h
  | succ fuel ih =>
    obtain ⟨ihe, ihs, ihc, iht, ihstr, ihd, ihf, ihca, iha⟩ := ih
    refine ⟨?_, ?_, ?_, ?_, ?_, ?_, ?_, ?_, ?_⟩
    -- expressions
    · intro e mp scope out hplain hpass h
      cases e with
      | Literal v =>
        simp only [pass_succ_eq, passSucc] at h
        exact (ok_inj h).symm
      | Parenthesized inner =>
        simp only [pass_succ_eq, passSucc] at h
        obtain ⟨v, h1, h2⟩ := bind_ok_inv h
        rw [ihe inner mp scope v (by simpa [plainExpression] using hplain) hpass h1] at h2
        exact (ok_inj h2).symm
      | NamedComponent base comp =>
        simp only [pass_succ_eq, passSucc] at h
        obtain ⟨v, h1, h2⟩ := bind_ok_inv h
        rw [ihe base mp scope v (by simpa [plainExpression] using hplain) hpass h1] at h2
        exact (ok_inj h2).symm
      | Indexing base index =>
        have hpl : plainExpression base = true ∧ plainExpression index = true := by
          simpa [plainExpression] using hplain
        simp only [pass_succ_eq, passSucc] at h
        obtain ⟨v, h1, h2⟩ := bind_ok_inv h
        rw [ihe base mp scope v hpl.1 hpass h1] at h2
        exact (ok_inj h2).symm
      | Unary operand =>
        simp only [pass_succ_eq, passSucc] at h
        obtain ⟨v, h1, h2⟩ := bind_ok_inv h
        rw [ihe operand mp scope v (by simpa [plainExpression] using hplain) hpass h1] at h2
        exact (ok_inj h2).symm
      | Binary left right =>
        have hpl : plainExpression left = true ∧ plainExpression right = true := by
          simpa [plainExpression] using hplain
        simp only [pass_succ_eq, passSucc] at h
        obtain ⟨v1, h1, h2⟩ := bind_ok_inv h
        obtain ⟨v2, h3, h4⟩ := bind_ok_inv h2
        rw [ihe left mp scope v1 hpl.1 hpass h1, ihe right mp scope v2 hpl.2 hpass h3] at h4
        exact (ok_inj h4).symm
      | FunctionCall path args =>
        have hpl : plainPath path.value = true ∧ plainExpressions args = true := by
          simpa [plainExpression] using hplain
        simp only [pass_succ_eq, passSucc] at h
        obtain ⟨v, h1, h2⟩ := bind_ok_inv h
        obtain ⟨vs, h3, h4⟩ := bind_ok_inv h2
        rw [relative_plain_id fuel scope mp path v hpass hpl.1 h1,
          walkExpressions_id (pass fuel) ihe args mp scope vs hpl.2 hpass h3] at h4
        exact (ok_inj h4).symm
      | Identifier path =>
        simp only [pass_succ_eq, passSucc] at h
        obtain ⟨v, h1, h2⟩ := bind_ok_inv h
        rw [relative_plain_id fuel scope mp path v hpass
          (by simpa [plainExpression] using hplain) h1] at h2
        exact (ok_inj h2).symm
      | «Type» t =>
        simp only [pass_succ_eq, passSucc] at h
        obtain ⟨v, h1, h2⟩ := bind_ok_inv h
        rw [iht t mp scope v (by simpa [plainExpression] using hplain) hpass h1] at h2
        exact (ok_inj h2).symm
    -- statements
    · intro st mp scope out hplain hpass h
      cases st with
      | Void =>
        simp only [pass_succ_eq, passSucc] at h
        exact (ok_inj h).symm
      | Break =>
        simp only [pass_succ_eq, passSucc] at h
        exact (ok_inj h).symm
      | Continue =>
        simp only [pass_succ_eq, passSucc] at h
        exact (ok_inj h).symm
      | Discard =>
        simp only [pass_succ_eq, passSucc] at h
        exact (ok_inj h).symm
      | Compound c =>
        simp only [pass_succ_eq, passSucc] at h
        obtain ⟨v, h1, h2⟩ := bind_ok_inv h
        rw [ihc c mp scope v (by simpa [plainStatement] using hplain) hpass h1] at h2
        exact (ok_inj h2).symm
      | Assignment lhs rhs =>
        have hpl : plainExpression lhs = true ∧ plainExpression rhs = true := by
          simpa [plainStatement] using hplain
        simp only [pass_succ_eq, passSucc] at h
        obtain ⟨v1, h1, h2⟩ := bind_ok_inv h
        obtain ⟨v2, h3, h4⟩ := bind_ok_inv h2
        rw [ihe lhs mp scope v1 hpl.1 hpass h1, ihe rhs mp scope v2 hpl.2 hpass h3] at h4
        exact (ok_inj h4).symm
      | Increment e =>
        simp only [pass_succ_eq, passSucc] at h
        obtain ⟨v, h1, h2⟩ := bind_ok_inv h
        rw [ihe e mp scope v (by simpa [plainStatement] using hplain) hpass h1] at h2
        exact (ok_inj h2).symm
      | Decrement e =>
        simp only [pass_succ_eq, passSucc] at h
        obtain ⟨v, h1, h2⟩ := bind_ok_inv h
        rw [ihe e mp scope v (by simpa [plainStatement] using hplain) hpass h1] at h2
        exact (ok_inj h2).symm
      | If if_clause else_if_clauses else_clause =>
        obtain ⟨cond, cbody⟩ := if_clause
        cases else_clause with
        | none =>
          have hpl : plainExpression cond = true ∧ plainCompound cbody = true
              ∧ plainElseIfs else_if_clauses = true := by
            simpa [plainStatement, and_assoc] using hplain
          obtain ⟨hc, hb, hei⟩ := hpl
          simp only [pass_succ_eq, passSucc, pure_bind_resolve] at h
          obtain ⟨v1, h1, h2⟩ := bind_ok_inv h
          obtain ⟨v2, h3, h4⟩ := bind_ok_inv h2
          obtain ⟨v3, h5, h6⟩ := bind_ok_inv h4
          rw [ihe cond mp scope v1 hc hpass h1, ihc cbody mp scope v2 hb hpass h3,
            walkElseIfs_id (pass fuel) ihe ihc else_if_clauses mp scope v3 hei hpass h5] at h6
          exact (ok_inj h6).symm
        | some ec =>
          have hpl : plainExpression cond = true ∧ plainCompound cbody = true
              ∧ plainElseIfs else_if_clauses = true ∧ plainCompound ec = true := by
            simpa [plainStatement, and_assoc] using hplain
          obtain ⟨hc, hb, hei, hec⟩ := hpl
          simp only [pass_succ_eq, passSucc, pure_bind_resolve] at h
          obtain ⟨v1, h1, h2⟩ := bind_ok_inv h
          obtain ⟨v2, h3, h4⟩ := bind_ok_inv h2
          obtain ⟨v3, h5, h6⟩ := bind_ok_inv h4
          obtain ⟨v4, h7, h8⟩ := bind_ok_inv h6
          obtain ⟨w, hw, hv4⟩ := map_ok_inv h7
          rw [ihc ec mp scope w hec hpass hw] at hv4
          rw [ihe cond mp scope v1 hc hpass h1, ihc cbody mp scope v2 hb hpass h3,
            walkElseIfs_id (pass fuel) ihe ihc else_if_clauses mp scope v3 hei hpass h5,
            hv4] at h8
          exact (ok_inj h8).symm
      | Switch e clauses =>
        have hpl : plainExpression e = true ∧ plainSwitchClauses clauses = true := by
          simpa [plainStatement] using hplain
        simp only [pass_succ_eq, passSucc] at h
        obtain ⟨v1, h1, h2⟩ := bind_ok_inv h
        obtain ⟨v2, h3, h4⟩ := bind_ok_inv h2
        rw [ihe e mp scope v1 hpl.1 hpass h1,
          walkSwitchClauses_id (pass fuel) ihe ihc clauses mp scope v2 hpl.2 hpass h3] at h4
        exact (ok_inj h4).symm
      | Loop l =>
        obtain ⟨⟨bdirs, bstmts⟩, continuing⟩ := l
        cases continuing with
        | none =>
          have hpl : bdirs.isEmpty = true ∧ plainStatements bstmts = true := by
            simpa [plainStatement, plainCompound, and_assoc] using hplain
          have hbd : bdirs = [] := isEmpty_eq_nil hpl.1
          subst hbd
          simp only [pass_succ_eq, passSucc, LoopStatement.body, LoopStatement.continuing,
            CompoundStatement.directives, CompoundStatement.statements, addCompoundUsages,
            pure_bind_resolve] at h
          obtain ⟨v, h1, h2⟩ := bind_ok_inv h
          rw [ihc (.mk [] bstmts) mp scope v
            (by simpa [plainCompound] using hpl.2) hpass h1] at h2
          exact (ok_inj h2).symm
        | some cont =>
          obtain ⟨⟨cdirs, cstmts⟩, brkIf⟩ := cont
          cases brkIf with
          | none =>
            have hpl : bdirs.isEmpty = true ∧ plainStatements bstmts = true
                ∧ cdirs.isEmpty = true ∧ plainStatements cstmts = true := by
              simpa [plainStatement, plainCompound, and_assoc] using hplain
            obtain ⟨hbd0, hbs, hcd0, _⟩ := hpl
            have hbd : bdirs = [] := isEmpty_eq_nil hbd0
            have hcd : cdirs = [] := isEmpty_eq_nil hcd0
            subst hbd hcd
            simp only [pass_succ_eq, passSucc, LoopStatement.body, LoopStatement.continuing,
              CompoundStatement.directives, CompoundStatement.statements,
              ContinuingStatement.body, ContinuingStatement.break_if, addCompoundUsages,
              pure_bind_resolve] at h
            obtain ⟨v1, h1, h2⟩ := bind_ok_inv h
            have hv1 : v1 = .mk [] bstmts :=
              ihc (.mk [] bstmts) mp scope v1 (by simpa [plainCompound] using hbs) hpass h1
            rw [hv1] at h2
            simp only [CompoundStatement.statements] at h2
            have hpass2 : PassiveScope (collectTopLevelLoopLocals bstmts scope) :=
              collectTop_passive bstmts scope hpass
            obtain ⟨v2, h3, h4⟩ := bind_ok_inv h2
            have hv2 : v2 = .mk [] bstmts :=
              ihc (.mk [] bstmts) mp _ v2 (by simpa [plainCompound] using hbs) hpass2 h3
            rw [hv2] at h4
            exact (ok_inj h4).symm
          | some be =>
            have hpl : bdirs.isEmpty = true ∧ plainStatements bstmts = true
                ∧ cdirs.isEmpty = true ∧ plainStatements cstmts = true
                ∧ plainExpression be = true := by
              simpa [plainStatement, plainCompound, and_assoc] using hplain
            obtain ⟨hbd0, hbs, hcd0, _, hbe⟩ := hpl
            have hbd : bdirs = [] := isEmpty_eq_nil hbd0
            have hcd : cdirs = [] := isEmpty_eq_nil hcd0
            subst hbd hcd
            simp only [pass_succ_eq, passSucc, LoopStatement.body, LoopStatement.continuing,
              CompoundStatement.directives, CompoundStatement.statements,
              ContinuingStatement.body, ContinuingStatement.break_if, addCompoundUsages,
              pure_bind_resolve] at h
            obtain ⟨v1, h1, h2⟩ := bind_ok_inv h
            have hv1 : v1 = .mk [] bstmts :=
              ihc (.mk [] bstmts) mp scope v1 (by simpa [plainCompound] using hbs) hpass h1
            rw [hv1] at h2
            simp only [CompoundStatement.statements] at h2
            have hpass2 : PassiveScope (collectTopLevelLoopLocals bstmts scope) :=
              collectTop_passive bstmts scope hpass
            obtain ⟨v2, h3, h4⟩ := bind_ok_inv h2
            have hv2 : v2 = .mk [] bstmts :=
              ihc (.mk [] bstmts) mp _ v2 (by simpa [plainCompound] using hbs) hpass2 h3
            have hpass3 : PassiveScope (collectTopLevelLoopLocals cstmts
                (collectTopLevelLoopLocals bstmts scope)) :=
              collectTop_passive cstmts _ hpass2
            obtain ⟨v3, h5, h6⟩ := bind_ok_inv h4
            obtain ⟨w, hw, hv3⟩ := map_ok_inv h5
            rw [ihe be mp _ w hbe hpass3 hw] at hv3
            rw [hv2, hv3] at h6
            exact (ok_inj h6).symm
      | For initializer condition update body =>
        cases initializer with
        | none =>
          cases condition with
          | none =>
            cases update with
            | none =>
              have hpl : plainCompound body = true := by
                simpa [plainStatement, and_assoc] using hplain
              simp only [pass_succ_eq, passSucc, pure_bind_resolve] at h
              obtain ⟨vb, hb1, hb2⟩ := bind_ok_inv h
              rw [ihc body mp scope vb hpl hpass hb1] at hb2
              exact (ok_inj hb2).symm
            | some u0 =>
              have hpl : plainStatement u0 = true ∧ plainCompound body = true := by
                simpa [plainStatement, and_assoc] using hplain
              simp only [pass_succ_eq, passSucc, pure_bind_resolve] at h
              obtain ⟨vu, hu1, hu2⟩ := bind_ok_inv h
              obtain ⟨wu, hwu, hvu⟩ := map_ok_inv hu1
              rw [ihs u0 mp scope wu hpl.1 hpass hwu] at hvu
              obtain ⟨vb, hb1, hb2⟩ := bind_ok_inv hu2
              rw [hvu, ihc body mp scope vb hpl.2 hpass hb1] at hb2
              exact (ok_inj hb2).symm
          | some c0 =>
            cases update with
            | none =>
              have hpl : plainExpression c0 = true ∧ plainCompound body = true := by
                simpa [plainStatement, and_assoc] using hplain
              simp only [pass_succ_eq, passSucc, pure_bind_resolve] at h
              obtain ⟨vc, hc1, hc2⟩ := bind_ok_inv h
              obtain ⟨wc, hwc, hvc⟩ := map_ok_inv hc1
              rw [ihe c0 mp scope wc hpl.1 hpass hwc] at hvc
              obtain ⟨vb, hb1, hb2⟩ := bind_ok_inv hc2
              rw [hvc, ihc body mp scope vb hpl.2 hpass hb1] at hb2
              exact (ok_inj hb2).symm
            | some u0 =>
              have hpl : plainExpression c0 = true ∧ plainStatement u0 = true
                  ∧ plainCompound body = true := by
                simpa [plainStatement, and_assoc] using hplain
              simp only [pass_succ_eq, passSucc, pure_bind_resolve] at h
              obtain ⟨vc, hc1, hc2⟩ := bind_ok_inv h
              obtain ⟨wc, hwc, hvc⟩ := map_ok_inv hc1
              rw [ihe c0 mp scope wc hpl.1 hpass hwc] at hvc
              obtain ⟨vu, hu1, hu2⟩ := bind_ok_inv hc2
              obtain ⟨wu, hwu, hvu⟩ := map_ok_inv hu1
              rw [ihs u0 mp scope wu hpl.2.1 hpass hwu] at hvu
              obtain ⟨vb, hb1, hb2⟩ := bind_ok_inv hu2
              rw [hvc, hvu, ihc body mp scope vb hpl.2.2 hpass hb1] at hb2
              exact (ok_inj hb2).symm
        | some init0 =>
          cases condition with
          | none =>
            cases update with
            | none =>
              have hpl : plainStatement init0 = true ∧ plainCompound body = true := by
                simpa [plainStatement, and_assoc] using hplain
              simp only [pass_succ_eq, passSucc, pure_bind_resolve] at h
              obtain ⟨vi, hi1, h2⟩ := bind_ok_inv h
              have hvi : vi = init0 := ihs init0 mp scope vi hpl.1 hpass hi1
              rw [hvi] at h2
              have hpass' := forInitScope_passive init0 scope hpass
              obtain ⟨vb, hb1, hb2⟩ := bind_ok_inv h2
              rw [ihc body mp _ vb hpl.2 hpass' hb1] at hb2
              exact (ok_inj hb2).symm
            | some u0 =>
              have hpl : plainStatement init0 = true ∧ plainStatement u0 = true
                  ∧ plainCompound body = true := by
                simpa [plainStatement, and_assoc] using hplain
              simp only [pass_succ_eq, passSucc, pure_bind_resolve] at h
              obtain ⟨vi, hi1, h2⟩ := bind_ok_inv h
              have hvi : vi = init0 := ihs init0 mp scope vi hpl.1 hpass hi1
              rw [hvi] at h2
              have hpass' := forInitScope_passive init0 scope hpass
              obtain ⟨vu, hu1, hu2⟩ := bind_ok_inv h2
              obtain ⟨wu, hwu, hvu⟩ := map_ok_inv hu1
              rw [ihs u0 mp _ wu hpl.2.1 hpass' hwu] at hvu
              obtain ⟨vb, hb1, hb2⟩ := bind_ok_inv hu2
              rw [hvu, ihc body mp _ vb hpl.2.2 hpass' hb1] at hb2
              exact (ok_inj hb2).symm
          | some c0 =>
            cases update with
            | none =>
              have hpl : plainStatement init0 = true ∧ plainExpression c0 = true
                  ∧ plainCompound body = true := by
                simpa [plainStatement, and_assoc] using hplain
              simp only [pass_succ_eq, passSucc, pure_bind_resolve] at h
              obtain ⟨vi, hi1, h2⟩ := bind_ok_inv h
              have hvi : vi = init0 := ihs init0 mp scope vi hpl.1 hpass hi1
              rw [hvi] at h2
              have hpass' := forInitScope_passive init0 scope hpass
              obtain ⟨vc, hc1, hc2⟩ := bind_ok_inv h2
              obtain ⟨wc, hwc, hvc⟩ := map_ok_inv hc1
              rw [ihe c0 mp _ wc hpl.2.1 hpass' hwc] at hvc
              obtain ⟨vb, hb1, hb2⟩ := bind_ok_inv hc2
              rw [hvc, ihc body mp _ vb hpl.2.2 hpass' hb1] at hb2
              exact (ok_inj hb2).symm
            | some u0 =>
              have hpl : plainStatement init0 = true ∧ plainExpression c0 = true
                  ∧ plainStatement u0 = true ∧ plainCompound body = true := by
                simpa [plainStatement, and_assoc] using hplain
              simp only [pass_succ_eq, passSucc, pure_bind_resolve] at h
              obtain ⟨vi, hi1, h2⟩ := bind_ok_inv h
              have hvi : vi = init0 := ihs init0 mp scope vi hpl.1 hpass hi1
              rw [hvi] at h2
              have hpass' := forInitScope_passive init0 scope hpass
              obtain ⟨vc, hc1, hc2⟩ := bind_ok_inv h2
              obtain ⟨wc, hwc, hvc⟩ := map_ok_inv hc1
              rw [ihe c0 mp _ wc hpl.2.1 hpass' hwc] at hvc
              obtain ⟨vu, hu1, hu2⟩ := bind_ok_inv hc2
              obtain ⟨wu, hwu, hvu⟩ := map_ok_inv hu1
              rw [ihs u0 mp _ wu hpl.2.2.1 hpass' hwu] at hvu
              obtain ⟨vb, hb1, hb2⟩ := bind_ok_inv hu2
              rw [hvc, hvu, ihc body mp _ vb hpl.2.2.2 hpass' hb1] at hb2
              exact (ok_inj hb2).symm
      | While condition body =>
        have hpl : plainExpression condition = true ∧ plainCompound body = true := by
          simpa [plainStatement] using hplain
        simp only [pass_succ_eq, passSucc] at h
        obtain ⟨v1, h1, h2⟩ := bind_ok_inv h
        obtain ⟨v2, h3, h4⟩ := bind_ok_inv h2
        rw [ihe condition mp scope v1 hpl.1 hpass h1,
          ihc body mp scope v2 hpl.2 hpass h3] at h4
        exact (ok_inj h4).symm
      | Return r =>
        cases r with
        | none =>
          simp only [pass_succ_eq, passSucc] at h
          exact (ok_inj h).symm
        | some e =>
          simp only [pass_succ_eq, passSucc] at h
          obtain ⟨v, h1, h2⟩ := bind_ok_inv h
          rw [ihe e mp scope v (by simpa [plainStatement] using hplain) hpass h1] at h2
          exact (ok_inj h2).symm
      | FunctionCall path args =>
        have hpl : plainPath path.value = true ∧ plainExpressions args = true := by
          simpa [plainStatement] using hplain
        simp only [pass_succ_eq, passSucc] at h
        obtain ⟨v, h1, h2⟩ := bind_ok_inv h
        obtain ⟨vs, h3, h4⟩ := bind_ok_inv h2
        rw [relative_plain_id fuel scope mp path v hpass hpl.1 h1,
          walkExpressions_id (pass fuel) ihe args mp scope vs hpl.2 hpass h3] at h4
        exact (ok_inj h4).symm
      | ConstAssert a =>
        obtain ⟨tps, e⟩ := a
        have hpl : tps.isEmpty = true ∧ plainExpression e = true := by
          simpa [plainStatement, ConstAssert.template_parameters, ConstAssert.expression]
            using hplain
        simp only [pass_succ_eq, passSucc, ConstAssert.template_parameters,
          ConstAssert.expression] at h
        obtain ⟨v, h1, h2⟩ := bind_ok_inv h
        rw [ihe e mp scope v hpl.2 hpass h1] at h2
        exact (ok_inj h2).symm
      | Declaration d =>
        obtain ⟨decl, stmts⟩ := d
        obtain ⟨nm, tps, typ, init⟩ := decl
        cases typ with
        | none =>
          cases init with
          | none =>
            have hpl : tps = [] ∧ plainStatements stmts = true := by
              simpa [plainStatement, plainDeclStatement, plainDeclaration, and_assoc]
                using hplain
            simp only [pass_succ_eq, passSucc, DeclarationStatement.declaration,
              DeclarationStatement.statements, Declaration.initializer, Declaration.typ,
              Declaration.name, Declaration.template_parameters, pure_bind_resolve] at h
            obtain ⟨vs, h1, h2⟩ := bind_ok_inv h
            rw [walkStatements_id (pass fuel) ihs stmts mp
              (Scope.insert scope nm.value .LocalDeclaration) vs hpl.2
              (passive_insert nm.value hpass trivial) h1] at h2
            exact (ok_inj h2).symm
          | some e0 =>
            have hpl : tps = [] ∧ plainExpression e0 = true ∧ plainStatements stmts = true := by
              simpa [plainStatement, plainDeclStatement, plainDeclaration, and_assoc]
                using hplain
            simp only [pass_succ_eq, passSucc, DeclarationStatement.declaration,
              DeclarationStatement.statements, Declaration.initializer, Declaration.typ,
              Declaration.name, Declaration.template_parameters, pure_bind_resolve] at h
            obtain ⟨vi, h1, h2⟩ := bind_ok_inv h
            obtain ⟨wi, hwi, hvi⟩ := map_ok_inv h1
            rw [ihe e0 mp scope wi hpl.2.1 hpass hwi] at hvi
            obtain ⟨vs, h3, h4⟩ := bind_ok_inv h2
            rw [hvi, walkStatements_id (pass fuel) ihs stmts mp
              (Scope.insert scope nm.value .LocalDeclaration) vs hpl.2.2
              (passive_insert nm.value hpass trivial) h3] at h4
            exact (ok_inj h4).symm
        | some t0 =>
          cases init with
          | none =>
            have hpl : tps = [] ∧ plainTypeExpression t0 = true
                ∧ plainStatements stmts = true := by
              simpa [plainStatement, plainDeclStatement, plainDeclaration, and_assoc]
                using hplain
            simp only [pass_succ_eq, passSucc, DeclarationStatement.declaration,
              DeclarationStatement.statements, Declaration.initializer, Declaration.typ,
              Declaration.name, Declaration.template_parameters, pure_bind_resolve] at h
            obtain ⟨vt, h1, h2⟩ := bind_ok_inv h
            obtain ⟨wt, hwt, hvt⟩ := map_ok_inv h1
            rw [iht t0 mp scope wt hpl.2.1 hpass hwt] at hvt
            obtain ⟨vs, h3, h4⟩ := bind_ok_inv h2
            rw [hvt, walkStatements_id (pass fuel) ihs stmts mp
              (Scope.insert scope nm.value .LocalDeclaration) vs hpl.2.2
              (passive_insert nm.value hpass trivial) h3] at h4
            exact (ok_inj h4).symm
          | some e0 =>
            have hpl : tps = [] ∧ plainTypeExpression t0 = true
                ∧ plainExpression e0 = true ∧ plainStatements stmts = true := by
              simpa [plainStatement, plainDeclStatement, plainDeclaration, and_assoc]
                using hplain
            simp only [pass_succ_eq, passSucc, DeclarationStatement.declaration,
              DeclarationStatement.statements, Declaration.initializer, Declaration.typ,
              Declaration.name, Declaration.template_parameters, pure_bind_resolve] at h
            obtain ⟨vi, h1, h2⟩ := bind_ok_inv h
            obtain ⟨wi, hwi, hvi⟩ := map_ok_inv h1
            rw [ihe e0 mp scope wi hpl.2.2.1 hpass hwi] at hvi
            obtain ⟨vt, h3, h4⟩ := bind_ok_inv h2
            obtain ⟨wt, hwt, hvt⟩ := map_ok_inv h3
            rw [iht t0 mp scope wt hpl.2.1 hpass hwt] at hvt
            obtain ⟨vs, h5, h6⟩ := bind_ok_inv h4
            rw [hvi, hvt, walkStatements_id (pass fuel) ihs stmts mp
              (Scope.insert scope nm.value .LocalDeclaration) vs hpl.2.2.2
              (passive_insert nm.value hpass trivial) h5] at h6
            exact (ok_inj h6).symm
    -- compound statements
    · intro cs mp scope out hplain hpass h
      obtain ⟨dirs, stmts⟩ := cs
      have hpl : dirs.isEmpty = true ∧ plainStatements stmts = true := by
        simpa [plainCompound] using hplain
      have hd : dirs = [] := isEmpty_eq_nil hpl.1
      subst hd
      simp only [pass_succ_eq, passSucc, CompoundStatement.directives,
        CompoundStatement.statements, addCompoundUsages, pure_bind_resolve] at h
      obtain ⟨vs, h1, h2⟩ := bind_ok_inv h
      rw [walkStatements_id (pass fuel) ihs stmts mp scope vs hpl.2 hpass h1] at h2
      exact (ok_inj h2).symm
    -- type expressions
    · intro t mp scope out hplain hpass h
      obtain ⟨pth⟩ := t
      simp only [pass_succ_eq, passSucc, TypeExpression.path] at h
      obtain ⟨v, h1, h2⟩ := bind_ok_inv h
      rw [relative_plain_id fuel scope mp pth v hpass
        (by simpa [plainTypeExpression, TypeExpression.path] using hplain) h1] at h2
      exact (ok_inj h2).symm
    -- structs
    · intro s mp scope out hplain hpass h
      obtain ⟨nm, tps, members⟩ := s
      have hpl : tps.isEmpty = true
          ∧ (members.all fun m => plainTypeExpression m.typ) = true := by
        simpa [plainStruct, Struct.template_parameters, Struct.members] using hplain
      have htps : tps = [] := isEmpty_eq_nil hpl.1
      subst htps
      simp only [pass_succ_eq, passSucc] at h
      obtain ⟨vp, h1, h2⟩ := bind_ok_inv h
      have hvp : vp = (Struct.mk nm [] members, scope) :=
        struct_TP_plain_id fuel mp (.mk nm [] members) scope vp rfl h1
      rw [hvp] at h2
      simp only [Struct.name, Struct.template_parameters, Struct.members] at h2
      obtain ⟨vm, h3, h4⟩ := bind_ok_inv h2
      rw [walkStructMembers_id (pass fuel) iht members mp scope vm hpl.2 hpass h3] at h4
      exact (ok_inj h4).symm
    -- declarations
    · intro d mp scope out hplain hpass h
      obtain ⟨nm, tps, typ, init⟩ := d
      cases typ with
      | none =>
        cases init with
        | none =>
          have hpl : tps = [] := by simpa [plainDeclaration, and_assoc] using hplain
          subst hpl
          simp only [pass_succ_eq, passSucc] at h
          obtain ⟨vp, h1, h2⟩ := bind_ok_inv h
          have hvp : vp = (Declaration.mk nm [] none none, scope) :=
            decl_TP_plain_id fuel mp (.mk nm [] none none) scope vp rfl h1
          rw [hvp] at h2
          simp only [Declaration.name, Declaration.template_parameters, Declaration.typ,
            Declaration.initializer, pure_bind_resolve] at h2
          exact (ok_inj h2).symm
        | some e0 =>
          have hpl : tps = [] ∧ plainExpression e0 = true := by
            simpa [plainDeclaration, and_assoc] using hplain
          obtain ⟨htps, he0⟩ := hpl
          subst htps
          simp only [pass_succ_eq, passSucc] at h
          obtain ⟨vp, h1, h2⟩ := bind_ok_inv h
          have hvp : vp = (Declaration.mk nm [] none (some e0), scope) :=
            decl_TP_plain_id fuel mp (.mk nm [] none (some e0)) scope vp rfl h1
          rw [hvp] at h2
          simp only [Declaration.name, Declaration.template_parameters, Declaration.typ,
            Declaration.initializer, pure_bind_resolve] at h2
          obtain ⟨vi, h3, h4⟩ := bind_ok_inv h2
          obtain ⟨wi, hwi, hvi⟩ := map_ok_inv h3
          rw [ihe e0 mp scope wi he0 hpass hwi] at hvi
          rw [hvi] at h4
          exact (ok_inj h4).symm
      | some t0 =>
        cases init with
        | none =>
          have hpl : tps = [] ∧ plainTypeExpression t0 = true := by
            simpa [plainDeclaration, and_assoc] using hplain
          obtain ⟨htps, ht0⟩ := hpl
          subst htps
          simp only [pass_succ_eq, passSucc] at h
          obtain ⟨vp, h1, h2⟩ := bind_ok_inv h
          have hvp : vp = (Declaration.mk nm [] (some t0) none, scope) :=
            decl_TP_plain_id fuel mp (.mk nm [] (some t0) none) scope vp rfl h1
          rw [hvp] at h2
          simp only [Declaration.name, Declaration.template_parameters, Declaration.typ,
            Declaration.initializer, pure_bind_resolve] at h2
          obtain ⟨vt, h3, h4⟩ := bind_ok_inv h2
          obtain ⟨wt, hwt, hvt⟩ := map_ok_inv h3
          rw [iht t0 mp scope wt ht0 hpass hwt] at hvt
          rw [hvt] at h4
          exact (ok_inj h4).symm
        | some e0 =>
          have hpl : tps = [] ∧ plainTypeExpression t0 = true ∧ plainExpression e0 = true := by
            simpa [plainDeclaration, and_assoc] using hplain
          obtain ⟨htps, ht0, he0⟩ := hpl
          subst htps
          simp only [pass_succ_eq, passSucc] at h
          obtain ⟨vp, h1, h2⟩ := bind_ok_inv h
          have hvp : vp = (Declaration.mk nm [] (some t0) (some e0), scope) :=
            decl_TP_plain_id fuel mp (.mk nm [] (some t0) (some e0)) scope vp rfl h1
          rw [hvp] at h2
          simp only [Declaration.name, Declaration.template_parameters, Declaration.typ,
            Declaration.initializer, pure_bind_resolve] at h2
          obtain ⟨vi, h3, h4⟩ := bind_ok_inv h2
          obtain ⟨wi, hwi, hvi⟩ := map_ok_inv h3
          rw [ihe e0 mp scope wi he0 hpass hwi] at hvi
          obtain ⟨vt, h5, h6⟩ := bind_ok_inv h4
          obtain ⟨wt, hwt, hvt⟩ := map_ok_inv h5
          rw [iht t0 mp scope wt ht0 hpass hwt] at hvt
          rw [hvi, hvt] at h6
          exact (ok_inj h6).symm
    -- functions
    · intro fn mp scope out hplain hpass h
      obtain ⟨nm, tps, params, rt, body⟩ := fn
      cases rt with
      | none =>
        have hpl : tps = [] ∧ (params.all fun p => plainTypeExpression p.typ) = true
            ∧ plainCompound body = true := by
          simpa [plainFunction, Function.template_parameters, Function.parameters,
            Function.return_type, Function.body, and_assoc] using hplain
        obtain ⟨htps, hparams, hbody⟩ := hpl
        subst htps
        simp only [pass_succ_eq, passSucc] at h
        obtain ⟨vp, h1, h2⟩ := bind_ok_inv h
        have hvp : vp = (Function.mk nm [] params none body, scope) :=
          func_TP_plain_id fuel mp (.mk nm [] params none body) scope vp rfl h1
        rw [hvp] at h2
        simp only [Function.name, Function.template_parameters, Function.parameters,
          Function.return_type, Function.body, pure_bind_resolve] at h2
        obtain ⟨vps, h3, h4⟩ := bind_ok_inv h2
        obtain ⟨vparams, vscope⟩ := vps
        have hvps := walkFunctionParams_id (pass fuel) iht params mp scope
          (vparams, vscope) hparams hpass h3
        obtain ⟨vb, h5, h6⟩ := bind_ok_inv h4
        have hvb : vb = body := ihc body mp vscope vb hbody hvps.2 h5
        rw [hvps.1, hvb] at h6
        exact (ok_inj h6).symm
      | some r0 =>
        obtain ⟨rp⟩ := r0
        have hpl : tps = [] ∧ (params.all fun p => plainTypeExpression p.typ) = true
            ∧ plainPath rp.value = true ∧ plainCompound body = true := by
          simpa [plainFunction, Function.template_parameters, Function.parameters,
            Function.return_type, Function.body, plainTypeExpression, TypeExpression.path,
            and_assoc] using hplain
        obtain ⟨htps, hparams, hrp, hbody⟩ := hpl
        subst htps
        simp only [pass_succ_eq, passSucc] at h
        obtain ⟨vp, h1, h2⟩ := bind_ok_inv h
        have hvp : vp = (Function.mk nm [] params (some (.mk rp)) body, scope) :=
          func_TP_plain_id fuel mp (.mk nm [] params (some (.mk rp)) body) scope vp rfl h1
        rw [hvp] at h2
        simp only [Function.name, Function.template_parameters, Function.parameters,
          Function.return_type, Function.body, TypeExpression.path, TypeExpression.withPath,
          pure_bind_resolve] at h2
        obtain ⟨vpath, h3, h4⟩ := bind_ok_inv h2
        rw [relative_plain_id fuel scope mp rp vpath hpass hrp h3] at h4
        obtain ⟨vps, h5, h6⟩ := bind_ok_inv h4
        obtain ⟨vparams, vscope⟩ := vps
        have hvps := walkFunctionParams_id (pass fuel) iht params mp scope
          (vparams, vscope) hparams hpass h5
        obtain ⟨vb, h7, h8⟩ := bind_ok_inv h6
        have hvb : vb = body := ihc body mp vscope vb hbody hvps.2 h7
        rw [hvps.1, hvb] at h8
        exact (ok_inj h8).symm
    -- const asserts
    · intro ca mp scope out hplain hpass h
      obtain ⟨tps, e⟩ := ca
      have hpl : tps.isEmpty = true ∧ plainExpression e = true := by
        simpa [plainConstAssert, ConstAssert.template_parameters, ConstAssert.expression]
          using hplain
      have htps : tps = [] := isEmpty_eq_nil hpl.1
      subst htps
      simp only [pass_succ_eq, passSucc] at h
      obtain ⟨vp, h1, h2⟩ := bind_ok_inv h
      have hvp : vp = (ConstAssert.mk [] e, scope) :=
        const_TP_plain_id fuel mp (.mk [] e) scope vp rfl h1
      rw [hvp] at h2
      simp only [ConstAssert.template_parameters, ConstAssert.expression] at h2
      obtain ⟨ve, h3, h4⟩ := bind_ok_inv h2
      rw [ihe e mp scope ve hpl.2 hpass h3] at h4
      exact (ok_inj h4).symm
    -- aliases
    · intro a mp scope out hplain hpass h
      obtain ⟨nm, tps, typ⟩ := a
      have hpl : tps.isEmpty = true ∧ plainTypeExpression typ.value = true := by
        simpa [plainAlias, Alias.template_parameters, Alias.typ] using hplain
      have htps : tps = [] := isEmpty_eq_nil hpl.1
      subst htps
      simp only [pass_succ_eq, passSucc] at h
      obtain ⟨vp, h1, h2⟩ := bind_ok_inv h
      have hvp : vp = (Alias.mk nm [] typ, scope) :=
        alias_TP_plain_id fuel mp (.mk nm [] typ) scope vp rfl h1
      rw [hvp] at h2
      simp only [Alias.name, Alias.template_parameters, Alias.typ] at h2
      obtain ⟨vt, h3, h4⟩ := bind_ok_inv h2
      rw [iht typ.value mp scope vt hpl.2 hpass h3] at h4
      exact (ok_inj h4).symm

theorem passive_of_forall :
    ∀ s : List (String × ScopeMember), (∀ kv ∈ s, passiveMember kv.2) → PassiveScope s
  | [], _ => by
    intro n sm h
    exact Option.noConfusion h
  | kv :: rest, hall => by
    obtain ⟨k, v⟩ := kv
    intro n sm h
    rw [show Scope.find ((k, v) :: rest) n
        = if k = n then some v else Scope.find rest n from rfl] at h
    split at h
    · injection h with h'
      rw [← h']
      exact hall (k, v) (List.mem_cons_self (k, v) rest)
    · exact passive_of_forall rest
        (fun x hx => hall x (List.mem_cons_of_mem (k, v) hx)) n sm h

theorem builtins_scope_passive (builtins : List String) :
    PassiveScope ((builtins.map fun b => (b, ScopeMember.BuiltIn)).reverse) := by
  refine passive_of_forall _ (fun kv hkv => ?_)
  rw [List.mem_reverse] at hkv
  obtain ⟨b, _, rfl⟩ := List.mem_map.mp hkv
  exact trivial

theorem preIndexGlobals_passive :
    ∀ (decls : List (Spanned GlobalDeclaration)) (scope : Scope),
      PassiveScope scope → PassiveScope (preIndexGlobals decls scope)
  | [], _, hp => hp
  | decl :: rest, scope, hp => by
    refine preIndexGlobals_passive rest _ ?_
    cases hdn : decl.value.name with
    | some name => exact passive_insert name.value hp trivial
    | none => exact hp

theorem walkGlobalDeclarations_id (p : PassFns)
    (hpd : ∀ d mp scope out, plainDeclaration d = true → PassiveScope scope →
      p.decl_to_absolute_path d mp scope = .ok out → out = d)
    (hpa : ∀ a mp scope out, plainAlias a = true → PassiveScope scope →
      p.alias_to_absolute_path a mp scope = .ok out → out = a)
    (hps : ∀ s mp scope out, plainStruct s = true → PassiveScope scope →
      p.struct_to_absolute_path s mp scope = .ok out → out = s)
    (hpf : ∀ fn mp scope out, plainFunction fn = true → PassiveScope scope →
      p.func_to_absolute_path fn mp scope = .ok out → out = fn)
    (hpc : ∀ ca mp scope out, plainConstAssert ca = true → PassiveScope scope →
      p.const_assert_to_absolute_path ca mp scope = .ok out → out = ca) :
    ∀ (l : List (Spanned GlobalDeclaration)) (mp : List PathPart) (scope : Scope)
      (out : List (Spanned GlobalDeclaration)),
      (l.all fun d => plainGlobalDeclaration d.value) = true → PassiveScope scope →
      walkGlobalDeclarations p mp scope l = .ok out → out = l
  | [], _, _, out, _, _, h => (ok_inj h).symm
  | d :: rest, mp, scope, out, hplain, hpass, h => by
    obtain ⟨dv, ds⟩ := d
    have hpl : plainGlobalDeclaration dv = true
        ∧ (rest.all fun d => plainGlobalDeclaration d.value) = true := by
      simpa using hplain
    cases dv with
    | Void =>
      simp only [walkGlobalDeclarations, pure_bind_resolve] at h
      obtain ⟨vr, h1, h2⟩ := bind_ok_inv h
      rw [walkGlobalDeclarations_id p hpd hpa hps hpf hpc rest mp scope vr
        hpl.2 hpass h1] at h2
      exact (ok_inj h2).symm
    | Declaration decl =>
      simp only [walkGlobalDeclarations, pure_bind_resolve] at h
      obtain ⟨v1, h1, h2⟩ := bind_ok_inv h
      obtain ⟨w, hw, hv1⟩ := map_ok_inv h1
      rw [hpd decl mp scope w (by simpa [plainGlobalDeclaration] using hpl.1) hpass hw] at hv1
      obtain ⟨vr, h3, h4⟩ := bind_ok_inv h2
      rw [walkGlobalDeclarations_id p hpd hpa hps hpf hpc rest mp scope vr
        hpl.2 hpass h3, hv1] at h4
      exact (ok_inj h4).symm
    | Alias a =>
      simp only [walkGlobalDeclarations, pure_bind_resolve] at h
      obtain ⟨v1, h1, h2⟩ := bind_ok_inv h
      obtain ⟨w, hw, hv1⟩ := map_ok_inv h1
      rw [hpa a mp scope w (by simpa [plainGlobalDeclaration] using hpl.1) hpass hw] at hv1
      obtain ⟨vr, h3, h4⟩ := bind_ok_inv h2
      rw [walkGlobalDeclarations_id p hpd hpa hps hpf hpc rest mp scope vr
        hpl.2 hpass h3, hv1] at h4
      exact (ok_inj h4).symm
    | Struct s =>
      simp only [walkGlobalDeclarations, pure_bind_resolve] at h
      obtain ⟨v1, h1, h2⟩ := bind_ok_inv h
      obtain ⟨w, hw, hv1⟩ := map_ok_inv h1
      rw [hps s mp scope w (by simpa [plainGlobalDeclaration] using hpl.1) hpass hw] at hv1
      obtain ⟨vr, h3, h4⟩ := bind_ok_inv h2
      rw [walkGlobalDeclarations_id p hpd hpa hps hpf hpc rest mp scope vr
        hpl.2 hpass h3, hv1] at h4
      exact (ok_inj h4).symm
    | Function f =>
      simp only [walkGlobalDeclarations, pure_bind_resolve] at h
      obtain ⟨v1, h1, h2⟩ := bind_ok_inv h
      obtain ⟨w, hw, hv1⟩ := map_ok_inv h1
      rw [hpf f mp scope w (by simpa [plainGlobalDeclaration] using hpl.1) hpass hw] at hv1
      obtain ⟨vr, h3, h4⟩ := bind_ok_inv h2
      rw [walkGlobalDeclarations_id p hpd hpa hps hpf hpc rest mp scope vr
        hpl.2 hpass h3, hv1] at h4
      exact (ok_inj h4).symm
    | ConstAssert ca =>
      simp only [walkGlobalDeclarations, pure_bind_resolve] at h
      obtain ⟨v1, h1, h2⟩ := bind_ok_inv h
      obtain ⟨w, hw, hv1⟩ := map_ok_inv h1
      rw [hpc ca mp scope w (by simpa [plainGlobalDeclaration] using hpl.1) hpass hw] at hv1
      obtain ⟨vr, h3, h4⟩ := bind_ok_inv h2
      rw [walkGlobalDeclarations_id p hpd hpa hps hpf hpc rest mp scope vr
        hpl.2 hpass h3, hv1] at h4
      exact (ok_inj h4).symm
    | Module m =>
      exact absurd hpl.1 (by simp [plainGlobalDeclaration])

theorem resolve_plain_id (builtins : List String) (fuel : Nat)
    (tu out : TranslationUnit) (hplain : plainTranslationUnit tu = true)
    (h : resolve_mut builtins fuel tu = .ok out) : out = tu := by
  cases fuel with
  | zero => exact Except.noConfusion h
  | succ fuel =>
    obtain ⟨gdirs, gdecls⟩ := tu
    have hpl : gdirs = []
        ∧ (gdecls.all fun d => plainGlobalDeclaration d.value) = true := by
      simpa [plainTranslationUnit] using hplain
    obtain ⟨hdirs, hdecls⟩ := hpl
    subst hdirs
    obtain ⟨ihe, ihs, ihc, iht, ihstr, ihd, ihf, ihca, iha⟩ := plain_identity fuel
    simp only [resolve_mut, pass_succ_eq, passSucc, partitionGlobalDirectives,
      globalExtensionsLoop, pure_bind_resolve, List.append_nil, List.nil_append] at h
    have hscope : PassiveScope (preIndexGlobals gdecls
        ((builtins.map fun b => (b, ScopeMember.BuiltIn)).reverse)) :=
      preIndexGlobals_passive gdecls _ (builtins_scope_passive builtins)
    obtain ⟨decls', h1, h2⟩ := bind_ok_inv h
    rw [walkGlobalDeclarations_id (pass fuel) ihd iha ihstr ihf ihca gdecls [] _ decls'
      hdecls hscope h1] at h2
    exact (ok_inj h2).symm

theorem buildExtensionAliases_fst (ext : Spanned ExtendDirective) (module_path : List PathPart)
    (path : Spanned (List PathPart)) :
    ∀ (members : List (Spanned ModuleMemberDeclaration)) (scope : Scope),
      (buildExtensionAliases ext module_path path members scope).1 =
        members.filterMap fun member => member.value.name.map fun name =>
          Alias.mk name
            ((member.value.template_parameters.getD []).map fun x =>
              ⟨x.value.withNameValue
                (mangle_template_parameter_name module_path name.value x.value.name.value),
               x.span⟩)
            ⟨.mk ⟨path.value ++ [PathPart.mk name none none], path.span⟩, ext.span⟩
  | [], _ => rfl
  | member :: rest, scope => by
    cases hname : member.value.name with
    | none =>
      simp [buildExtensionAliases, hname, List.filterMap_cons,
        buildExtensionAliases_fst ext module_path path rest]
    | some name =>
      simp [buildExtensionAliases, hname, List.filterMap_cons,
        buildExtensionAliases_fst ext module_path path rest]

/-- C4: when the extended module resolves (`find_module_and_scope` returns a
module and scope, the extend path rewrites to `ep`, and the copy normalizes to
`m1`), `add_extension_to_scope` returns exactly one synthetic alias per named
member of the normalized module, in member order: the alias is named like the
member, its type path is the rewritten extend path (inline blocks cleared)
followed by the member's name, and its template parameters are re-mangled at
the extending module's path. -/
theorem c4_extend_aliases (fuel : Nat) (ext : Spanned ExtendDirective)
    (module_path : List PathPart) (scope : Scope) (m0 m1 : Mew.Module) (ms : Scope)
    (ep : Spanned (List PathPart))
    (h1 : (pass fuel).find_module_and_scope scope ext.value.path = .ok (m0, ms))
    (h2 : (pass fuel).relative_path_to_absolute_path scope module_path ext.value.path = .ok ep)
    (h3 : (pass fuel).module_to_absolute_path m0 ep.value ms = .ok m1) :
    ∃ scope', add_extension_to_scope (fuel + 1) ext module_path scope = .ok
      (m1.members.filterMap fun member => member.value.name.map fun name =>
        Alias.mk name
          ((member.value.template_parameters.getD []).map fun x =>
            ⟨x.value.withNameValue
              (mangle_template_parameter_name module_path name.value x.value.name.value),
             x.span⟩)
          ⟨.mk ⟨(ep.value.map fun part => part.withInlineTemplateArgs none)
              ++ [PathPart.mk name none none], ep.span⟩, ext.span⟩,
       scope') := by
  refine ⟨(buildExtensionAliases ext module_path
    ⟨ep.value.map fun part => part.withInlineTemplateArgs none, ep.span⟩
    m1.members scope).2, ?_⟩
  show (passSucc (pass fuel)).add_extension_to_scope ext module_path scope = _
  simp only [passSucc, h1, ok_bind, h2, h3]
  rw [← buildExtensionAliases_fst ext module_path
    ⟨ep.value.map fun part => part.withInlineTemplateArgs none, ep.span⟩ m1.members scope]
  rfl

/-- C4 witness: `extend A` at the root, with `A` a root module containing only
`fn f`: exactly one alias `f`, typed `[A, f]`, with no template parameters. -/
theorem c4_extend_aliases_witness :
    ∃ scope', add_extension_to_scope 6 c4_ext [] c4_scope = .ok
      ([Alias.mk ⟨"f", sp⟩ [] ⟨.mk ⟨[ppart "A", ppart "f"], sp⟩, sp⟩], scope') := by
  obtain ⟨s', h⟩ := c4_extend_aliases 5 c4_ext [] c4_scope c4_modA c4_modA c4_scope
    ⟨[ppart "A"], sp⟩ rfl rfl rfl
  exact ⟨s', h⟩

theorem withNameValue_name (p : PathPart) (nn : String) :
    (p.withNameValue nn).name.value = nn := by
  cases p
  rfl

theorem absoluteHeaded_head (scope : Scope) (roots : List String) (h : PathPart)
    (t t' : List PathPart) (ha : absoluteHeaded scope roots (h :: t)) :
    absoluteHeaded scope roots (h :: t') := ha

/-- C1 counterexample: the unit `fn f(p: i32) { return p::y; }` resolves `Ok`
with the two-segment path `p::y` left in the output; that path is not a
single segment, and its first segment `p` (a formal parameter) is not a
declaration at the translation-unit root. -/
theorem c1_counterexample :
    resolve_mut ["i32"] 10 c1_tu = .ok c1_tu ∧
    c1_fn.body.statements = [.Return (some (.Identifier ⟨[ppart "p", ppart "y"], sp⟩))] ∧
    ¬([ppart "p", ppart "y"].length = 1 ∨ "p" ∈ rootDeclNames c1_tu) := by
  refine ⟨rfl, rfl, ?_⟩
  intro h
  rcases h with h | h
  · simp at h
  · revert h
    decide

/-- C1 amended (rewriter level, first segment instead of single segment):
whenever the path rewriter succeeds under a scope whose stored module-member,
use and inline paths are themselves root-absolute (`ScopeOk`), the output
path is either empty, or its first segment names a builtin, local
declaration, formal parameter, template parameter or inline binding in that
scope, or its first segment is a translation-unit root declaration name.
Every identifier path the pass rewrites — in particular a loop continuing
block's `break_if` path — goes through this rewriter. -/
theorem c1_rewriter_invariant_amended (scope : Scope) (roots : List String)
    (p p' : Spanned (List PathPart)) (hok : ScopeOk scope roots)
    (h : append_from_scope scope p = .ok p') :
    absoluteHeaded scope roots p'.value := by
  obtain ⟨v, s⟩ := p
  cases v with
  | nil =>
    have hL : append_from_scope scope ⟨[], s⟩ = .ok ⟨[], s⟩ := rfl
    rw [hL] at h
    injection h with h'
    rw [← h']
    trivial
  | cons fst rest =>
    cases hfind : scope.find fst.name.value with
    | none =>
      exfalso
      have hL : append_from_scope scope ⟨fst :: rest, s⟩
          = .error (.SymbolNotFound (fst :: rest) s) := by
        simp [append_from_scope, hfind]
      rw [hL] at h
      cases h
    | some sm =>
      have hsm := hok fst.name.value sm hfind
      cases sm with
      | LocalDeclaration =>
        have hL : append_from_scope scope ⟨fst :: rest, s⟩ = .ok ⟨fst :: rest, s⟩ := by
          simp [append_from_scope, hfind]
        rw [hL] at h
        injection h with h'
        rw [← h']
        exact Or.inr ⟨.LocalDeclaration, hfind, trivial⟩
      | BuiltIn =>
        have hL : append_from_scope scope ⟨fst :: rest, s⟩ = .ok ⟨fst :: rest, s⟩ := by
          simp [append_from_scope, hfind]
        rw [hL] at h
        injection h with h'
        rw [← h']
        exact Or.inr ⟨.BuiltIn, hfind, trivial⟩
      | FormalFunctionParameter =>
        have hL : append_from_scope scope ⟨fst :: rest, s⟩ = .ok ⟨fst :: rest, s⟩ := by
          simp [append_from_scope, hfind]
        rw [hL] at h
        injection h with h'
        rw [← h']
        exact Or.inr ⟨.FormalFunctionParameter, hfind, trivial⟩
      | GlobalDeclaration d =>
        have hL : append_from_scope scope ⟨fst :: rest, s⟩ = .ok ⟨fst :: rest, s⟩ := by
          simp [append_from_scope, hfind]
        rw [hL] at h
        injection h with h'
        rw [← h']
        exact Or.inl hsm
      | TemplateParam nn =>
        have hL : append_from_scope scope ⟨fst :: rest, s⟩
            = .ok ⟨setFirstName (fst :: rest) nn, s⟩ := by
          simp [append_from_scope, hfind]
        rw [hL] at h
        injection h with h'
        rw [← h']
        obtain ⟨s', hs', hok'⟩ := hsm
        show absoluteHeaded scope roots (fst.withNameValue nn :: rest)
        refine Or.inr ⟨s', ?_, hok'⟩
        rw [withNameValue_name]
        exact hs'
      | ModuleMemberDeclaration mp d =>
        have hL : append_from_scope scope ⟨fst :: rest, s⟩
            = .ok ⟨mp ++ fst :: rest, s⟩ := by
          simp [append_from_scope, hfind]
        rw [hL] at h
        injection h with h'
        rw [← h']
        cases mp with
        | nil => exact Or.inl (hsm.1 rfl)
        | cons mh mt => exact absoluteHeaded_head scope roots mh mt _ hsm.2
      | UseDeclaration mp ta =>
        obtain ⟨hne, habs⟩ := hsm
        obtain ⟨mh, mt, rfl⟩ : ∃ mh mt, mp = mh :: mt := by
          cases mp with
          | nil => exact absurd rfl hne
          | cons mh mt => exact ⟨mh, mt, rfl⟩
        have hL : append_from_scope scope ⟨fst :: rest, s⟩
            = .ok ⟨(mh :: mt) ++ rest, s⟩ := by
          cases ta with
          | none => simp [append_from_scope, hfind]
          | some targs =>
            by_cases he : targs.isEmpty
            · simp [append_from_scope, hfind, he]
            · simp [append_from_scope, hfind, he, setFirstTemplateArgs]
        rw [hL] at h
        injection h with h'
        rw [← h']
        exact absoluteHeaded_head scope roots mh mt _ habs
      | Inline mp =>
        obtain ⟨hne, habs⟩ := hsm
        obtain ⟨mh, mt, rfl⟩ : ∃ mh mt, mp = mh :: mt := by
          cases mp with
          | nil => exact absurd rfl hne
          | cons mh mt => exact ⟨mh, mt, rfl⟩
        have hL : append_from_scope scope ⟨fst :: rest, s⟩
            = .ok ⟨(mh :: mt) ++ rest, s⟩ := by
          simp [append_from_scope, hfind]
        rw [hL] at h
        injection h with h'
        rw [← h']
        exact absoluteHeaded_head scope roots mh mt _ habs

/-- C1 witness: the amended invariant at the scope binding `x` locally and the
two-segment path `x::y`: the rewriter leaves it unchanged and the output is
absolutely headed (via its first segment's local binding). -/
theorem c1_rewriter_invariant_amended_witness :
    absoluteHeaded [("x", ScopeMember.LocalDeclaration)] []
      (⟨[ppart "x", ppart "y"], sp⟩ : Spanned (List PathPart)).value := by
  apply c1_rewriter_invariant_amended [("x", ScopeMember.LocalDeclaration)] []
    ⟨[ppart "x", ppart "y"], sp⟩ ⟨[ppart "x", ppart "y"], sp⟩ ?_ rfl
  intro n sm h
  simp only [Scope.find] at h
  split at h
  · injection h with h'
    rw [← h']
    trivial
  · cases h

/-- C7: for a declaration statement `let x = e; …trailing`, the walker walks
the initializer and the declared type under the scope as given (before `x` is
inserted), then inserts `x` as a local declaration, then walks the trailing
statements under the extended scope.  Consequently `let x = x;` under an
empty scope fails with `SymbolNotFound(["x"])` (x invisible to its own
initializer) while `let x = 1; return x;` succeeds with the reference left
unchanged (x visible to trailing statements). -/
theorem c7_declaration_statement_scoping :
    (∀ (fuel : Nat) (d : DeclarationStatement) (module_path : List PathPart) (scope : Scope),
      statement_to_absolute_paths (fuel + 1) (.Declaration d) module_path scope =
        (do
          let init' ← match d.declaration.initializer with
            | some init => some <$> expression_to_absolute_paths fuel init module_path scope
            | none => pure none
          let typ' ← match d.declaration.typ with
            | some typ => some <$> type_to_absolute_path fuel typ module_path scope
            | none => pure none
          let stmts ← walkStatements (pass fuel) module_path
            (scope.insert d.declaration.name.value .LocalDeclaration) d.statements
          pure (.Declaration (.mk
            (.mk d.declaration.name d.declaration.template_parameters typ' init') stmts)))) ∧
    statement_to_absolute_paths 5 (.Declaration c7_selfref) [] Scope.empty
      = .error (.SymbolNotFound [ppart "x"] sp) ∧
    statement_to_absolute_paths 5 (.Declaration c7_trailing) [] Scope.empty
      = .ok (.Declaration c7_trailing) :=
  ⟨fun _ _ _ _ => rfl, rfl, rfl⟩

/-- C3, counterexample: resolution is not idempotent in general.  On the input
`fn f<T>() {}` the first run mangles the template parameter `T` to `f_T`;
running the pass again on that output mangles it once more, to `f_f__T`, so
the second run changes the tree. -/
theorem c3_not_idempotent_counterexample :
    resolve_mut [] 10 c3_tu = .ok c3_tu1
    ∧ resolve_mut [] 10 c3_tu1 = .ok c3_tu2
    ∧ c3_tu2 ≠ c3_tu1 :=
  ⟨rfl, rfl, fun hcontra => absurd (congrArg firstFnParamNames hcontra) (by decide)⟩

/-- C3, amended: on a plain translation unit (no global directives, no
modules, no template parameters, and no template or inline arguments on any
path segment) a successful pass returns the input unchanged, so a second run
succeeds with the same output: resolution is idempotent on the plain
fragment.  (The general claim is false: template-parameter mangling re-mangles
already-mangled names, see the counterexample.) -/
theorem c3_plain_idempotent_amended (builtins : List String) (fuel : Nat)
    (tu out : TranslationUnit) (hplain : plainTranslationUnit tu = true)
    (h : resolve_mut builtins fuel tu = .ok out) :
    out = tu ∧ resolve_mut builtins fuel out = .ok out := by
  have hid := resolve_plain_id builtins fuel tu out hplain h
  subst hid
  exact ⟨rfl, h⟩

theorem c3_plain_idempotent_amended_witness :
    plainTranslationUnit c3w_tu = true
    ∧ (c3w_tu = c3w_tu ∧ resolve_mut [] 10 c3w_tu = .ok c3w_tu) :=
  ⟨rfl, c3_plain_idempotent_amended [] 10 c3w_tu c3w_tu rfl rfl⟩

end Checks
